import Mathlib

/-!
Verification development for the Kanban widget's drag-and-drop reordering and
optimistic-state engine.  The definitions below are a shallow embedding of the
TypeScript sources:

* `SingleBoard.tsx` — entity model builder (`getColumns`), optimistic move
  (`performOptimisticCardMove`), commit pipeline (`handleCardDrop`),
  reconciliation effect.
* `MultiBoard.tsx` — the multi-board variants of the same functions.
* `AdvancedKanbanBoard.tsx` — single-board drag-end resolution (`handleDragEnd`).
* `MultiBoardDragDrop.tsx` — multi-board drag-end resolution.
* `shared/useCardCache.ts`, `shared/cardUtils.ts` — card content cache.

JavaScript `Array.prototype.sort` (ES2019+) is a stable sort by the comparator,
embedded here by `List.mergeSort` on the comparator's ordering.  JavaScript
`findIndex` (returning -1 when absent) is embedded as an `Option Nat` valued
`findIndex`, converted to `Int` where the -1 value itself flows through code.
Opaque React nodes (titles, card content widgets) are embedded as `Nat` tags.
-/

/-- JS `Array.prototype.findIndex`, as an `Option Nat` (none for -1). -/
def findIndex (p : α → Bool) : List α → Option Nat
  | [] => none
  | a :: as => if p a then some 0 else (findIndex p as).map (· + 1)

/-- JS `array.splice(i, 0, a)` for `i ≤ length`: insert `a` at index `i`. -/
def insertAt (i : Nat) (a : α) (l : List α) : List α := List.insertIdx i a l

/-- JS `array.splice(i, 1)`: remove the element at index `i`. -/
def removeAt (l : List α) (i : Nat) : List α := List.eraseIdx l i

/-- The rendered content slot of a card (opaque React node or cached HTML). -/
inductive CardContent where
  /-- A `div` rebuilt from cached innerHTML (`createCard` cache branch). -/
  | cachedHtml (html : String) : CardContent
  /-- The real content widget of the backing record (opaque), if configured. -/
  | widget (w : Option Nat) : CardContent
deriving DecidableEq, Repr

/-- A Kanban card as built by `createCard` (cardUtils.ts). -/
structure KCard where
  id : String
  content : CardContent
  /-- Back-reference to the external record (`item: ObjectItem`), opaque. -/
  item : Nat
  isUsingCache : Bool
  key : String
deriving DecidableEq, Repr

/-- A Kanban column (`KanbanColumn` in AdvancedKanbanBoard.tsx).  `title` is an
opaque React node; `sortValue` is the numeric sort key attached by
`getColumns`/`getBoards` before sorting. -/
structure KanbanColumn where
  id : String
  title : Nat
  cards : List KCard
  sortValue : Rat := 0
deriving DecidableEq, Repr

/-- A board of the multi-board mode (`getBoards` output element). -/
structure KBoard where
  id : String
  title : Nat
  columns : List KanbanColumn
  sortValue : Rat := 0
deriving DecidableEq, Repr

/-- All columns of a multi-board tree, in board-then-column order. -/
def allColumns (boards : List KBoard) : List KanbanColumn :=
  boards.flatMap (·.columns)

/-- `createCard` from `shared/cardUtils.ts`: content is the cached HTML `div`
when the card is marked as using cache and a non-empty cached string exists
(`shouldUseCache && cachedHtml ? ... : cardContent`); the key appends the
column id, plus `-cached` when serving from cache. -/
def createCard (cardItem : Nat) (cardId columnId : String) (cardContent : Option Nat)
    (shouldUseCache : Bool) (cachedHtml : Option String) : KCard :=
  { id := cardId
    content :=
      if shouldUseCache ∧ cachedHtml ≠ none ∧ cachedHtml ≠ some "" then
        CardContent.cachedHtml (cachedHtml.getD "")
      else
        CardContent.widget cardContent
    item := cardItem
    isUsingCache := shouldUseCache
    key := cardId ++ "-" ++ columnId ++ (if shouldUseCache then "-cached" else "") }

/-- `performOptimisticCardMove` from `SingleBoard.tsx`.  The TS function
shallow-copies every column with a fresh card array, looks up the source and
target columns by id (`Array.find`, first match), removes the card found by
`findIndex` on its id, re-keys it with the target column id, and splices it
into the target at `min(newIndex, target.length)` (end of list when
`newIndex` is undefined).  When source id = target id the two `find` calls
return the same object, so the insertion happens in the card array that the
removal already shrank; the embedding mirrors that aliasing through the
index equality `si = ti`.  Any failed lookup returns the input unchanged. -/
def performOptimisticCardMove (columns : List KanbanColumn)
    (cardId sourceColumnId targetColumnId : String) (newIndex : Option Nat) :
    List KanbanColumn :=
  match findIndex (fun col => col.id == sourceColumnId) columns,
        findIndex (fun col => col.id == targetColumnId) columns with
  | some si, some ti =>
    match columns.get? si with
    | none => columns
    | some sourceColumn =>
      match findIndex (fun card => card.id == cardId) sourceColumn.cards with
      | none => columns
      | some cardIndex =>
        match sourceColumn.cards.get? cardIndex with
        | none => columns
        | some originalCard =>
          let removed := removeAt sourceColumn.cards cardIndex
          let movedCard := { originalCard with key := originalCard.id ++ "-" ++ targetColumnId }
          if si = ti then
            let insertIndex := min (newIndex.getD removed.length) removed.length
            columns.set si { sourceColumn with cards := insertAt insertIndex movedCard removed }
          else
            match columns.get? ti with
            | none => columns
            | some targetColumn =>
              let insertIndex :=
                min (newIndex.getD targetColumn.cards.length) targetColumn.cards.length
              (columns.set si { sourceColumn with cards := removed }).set ti
                { targetColumn with cards := insertAt insertIndex movedCard targetColumn.cards }
  | _, _ => columns

/-- Index (from the end recursion) of the LAST column in `cols` whose id is
`x`; mirrors the multi-board lookup loop, which keeps overwriting its local
variable without breaking, so the last match in traversal order wins. -/
def lastIdxCol (cols : List KanbanColumn) (x : String) : Option Nat :=
  match cols with
  | [] => none
  | c :: cs =>
    match lastIdxCol cs x with
    | some j => some (j + 1)
    | none => if c.id == x then some 0 else none

/-- Position `(board index, column index)` of the LAST column in traversal
order whose id is `x` (the multi-board `performOptimisticCardMove` lookup
loop assigns on every match and never breaks). -/
def lastColPos (boards : List KBoard) (x : String) : Option (Nat × Nat) :=
  match boards with
  | [] => none
  | b :: bs =>
    match lastColPos bs x with
    | some p => some (p.1 + 1, p.2)
    | none => (lastIdxCol b.columns x).map (fun j => (0, j))

/-- The column at a `(board, column)` position. -/
def colAt (boards : List KBoard) (p : Nat × Nat) : Option KanbanColumn :=
  (boards.get? p.1).bind (fun b => b.columns.get? p.2)

/-- Replace the card array of the column at a `(board, column)` position. -/
def setColCards (boards : List KBoard) (p : Nat × Nat) (cards : List KCard) :
    List KBoard :=
  match boards.get? p.1 with
  | none => boards
  | some b =>
    match b.columns.get? p.2 with
    | none => boards
    | some c =>
      boards.set p.1 { b with columns := b.columns.set p.2 { c with cards := cards } }

/-- `performOptimisticCardMove` from `MultiBoard.tsx`.  Identical to the
single-board version except that source and target columns are located by a
non-breaking double loop over all boards (last match wins) and the mutation
happens inside the nested board structure.  Source and target alias the same
object exactly when they are the same position, i.e. when the two id strings
are equal. -/
def performOptimisticCardMoveMulti (boards : List KBoard)
    (cardId sourceColumnId targetColumnId : String) (newIndex : Option Nat) :
    List KBoard :=
  match lastColPos boards sourceColumnId, lastColPos boards targetColumnId with
  | some sp, some tp =>
    match colAt boards sp with
    | none => boards
    | some sourceColumn =>
      match findIndex (fun card => card.id == cardId) sourceColumn.cards with
      | none => boards
      | some cardIndex =>
        match sourceColumn.cards.get? cardIndex with
        | none => boards
        | some originalCard =>
          let removed := removeAt sourceColumn.cards cardIndex
          let movedCard := { originalCard with key := originalCard.id ++ "-" ++ targetColumnId }
          if sp = tp then
            let insertIndex := min (newIndex.getD removed.length) removed.length
            setColCards boards sp (insertAt insertIndex movedCard removed)
          else
            match colAt boards tp with
            | none => boards
            | some targetColumn =>
              let insertIndex :=
                min (newIndex.getD targetColumn.cards.length) targetColumn.cards.length
              setColCards (setColCards boards sp removed) tp
                (insertAt insertIndex movedCard targetColumn.cards)
  | _, _ => boards

/-- What the dnd-kit `over` element of a drag event identifies: a card (the
droppable registered with the card id and `type: card` data), a column (the
droppable with `type: column` data carrying the column object), or some other
droppable known only by its id string (single-board fallback path). -/
inductive OverTarget where
  | card (id : String) : OverTarget
  | column (col : KanbanColumn) : OverTarget
  | zone (id : String) : OverTarget
deriving Repr

/-- A call to `onCardDrop(cardId, sourceColumnId, targetColumnId, newIndex)`.
`newIndex` is an `Option Int` because the single-board handler computes it as
a JS number that can pass through `-1 + 1` arithmetic. -/
structure MoveEmit where
  cardId : String
  sourceColumnId : String
  targetColumnId : String
  newIndex : Option Int
deriving DecidableEq, Repr

/-- `findCardAndColumn` from `AdvancedKanbanBoard.tsx`: first column whose
cards contain the id, returning the card and the column id. -/
def findCardAndColumn (columns : List KanbanColumn) (cardId : String) :
    Option (KCard × String) :=
  columns.findSome? (fun column =>
    (column.cards.find? (fun c => c.id == cardId)).map (fun card => (card, column.id)))

/-- The substring after the first occurrence of `column-` (JS
`over.id.toString().match(/column-(.+)/)` capture group), if non-empty. -/
def columnIdMatch (s : String) : Option String :=
  let pat := "column-".data
  let rec go : List Char → Option (List Char)
    | [] => none
    | c :: cs => if pat.isPrefixOf (c :: cs) then some ((c :: cs).drop pat.length) else go cs
  match go s.data with
  | some rest => if rest.isEmpty then none else some (String.mk rest)
  | none => none

/-- Target resolution of the single-board `handleDragEnd`
(`AdvancedKanbanBoard.tsx`): the `(targetColumnId, newIndex)` pair it computes
from the `over` element before deciding whether to call `onCardDrop`.  A drop
on a card takes that card's column (via `findCardAndColumn`) and the card's
`findIndex` position there — exact position for a same-column drop, position+1
for a cross-column drop (`-1` flows through when the id lookup misses); a drop
on a column takes that column with no index; otherwise the `column-(.+)` regex
fallback, then the dragged card's own column. -/
def resolveTargetSingle (columns : List KanbanColumn) (activeColumnId : String)
    (ov : OverTarget) : String × Option Int :=
  match ov with
  | OverTarget.card overId =>
    match findCardAndColumn columns overId with
    | some res =>
      let targetColumnId := res.2
      match columns.find? (fun col => col.id == targetColumnId) with
      | some targetColumn =>
        let targetIndex : Int :=
          match findIndex (fun card => card.id == overId) targetColumn.cards with
          | some k => (k : Int)
          | none => -1
        if targetColumnId == activeColumnId then (targetColumnId, some targetIndex)
        else (targetColumnId, some (targetIndex + 1))
      | none => (targetColumnId, none)
    | none => (activeColumnId, none)
  | OverTarget.column col => (col.id, none)
  | OverTarget.zone oid =>
    match columnIdMatch oid with
    | some rest => (rest, none)
    | none => (activeColumnId, none)

/-- `handleDragEnd` from `AdvancedKanbanBoard.tsx`, as the `onCardDrop` call
it emits (none when it returns without emitting).  `activeId`/`activeColumnId`
are the component state recorded at drag start; a missing `over`, missing
active item, or empty (falsy) `activeColumnId` aborts.  The emission guard is
`targetColumnId !== activeColumnId || (newIndex !== undefined && newIndex >= 0)`. -/
def handleDragEnd (columns : List KanbanColumn) (activeId activeColumnId : String)
    (over : Option OverTarget) : Option MoveEmit :=
  match over with
  | none => none
  | some ov =>
    if activeColumnId == "" then none
    else
      let res := resolveTargetSingle columns activeColumnId ov
      if res.1 != activeColumnId || (match res.2 with | some n => decide (n ≥ 0) | none => false) then
        some ⟨activeId, activeColumnId, res.1, res.2⟩
      else none

/-- Source-column scan of the multi-board `handleDragEnd`
(`MultiBoardDragDrop.tsx`): per board, the first column whose cards contain
the dragged id sets the variable and breaks the inner loop; the outer loop
breaks only when the accumulated id is truthy (non-empty). -/
def findSourceGo (cardId : String) (acc : String) : List KBoard → String
  | [] => acc
  | b :: bs =>
    if acc != "" then acc
    else
      let acc' :=
        match b.columns.find? (fun col => col.cards.any (fun card => card.id == cardId)) with
        | some col => col.id
        | none => acc
      findSourceGo cardId acc' bs

/-- The `sourceColumnId` computed by the multi-board `handleDragEnd`
(empty string when the dragged card is found nowhere). -/
def findSourceColumnId (boards : List KBoard) (cardId : String) : String :=
  findSourceGo cardId "" boards

/-- Inner loop of the multi-board over-a-card target scan: first column whose
`findIndex` on the over card's id hits, with that index. -/
def findColWithCard (cols : List KanbanColumn) (overId : String) :
    Option (String × Nat) :=
  match cols with
  | [] => none
  | c :: cs =>
    match findIndex (fun card => card.id == overId) c.cards with
    | some k => some (c.id, k)
    | none => findColWithCard cs overId

/-- Target scan of the multi-board `handleDragEnd` for a drop on a card: per
board, the first column containing the over card sets
`(targetColumnId, newIndex)` — the exact card index when the (already final)
source column id equals this column's id, index+1 otherwise — and breaks the
inner loop; the outer loop breaks only on a truthy target id. -/
def findTargetGo (sourceColumnId overId : String) (acc : String × Option Nat) :
    List KBoard → String × Option Nat
  | [] => acc
  | b :: bs =>
    if acc.1 != "" then acc
    else
      let acc' :=
        match findColWithCard b.columns overId with
        | some (cid, k) => (cid, some (if sourceColumnId == cid then k else k + 1))
        | none => acc
      findTargetGo sourceColumnId overId acc' bs

/-- Target resolution of the multi-board `handleDragEnd`: a drop on a column
droppable uses `over.id` (registered as the column id) with no index; a drop
on a card runs the target scan; anything else leaves the target id empty. -/
def resolveTargetMulti (boards : List KBoard) (sourceColumnId : String)
    (ov : OverTarget) : String × Option Nat :=
  match ov with
  | OverTarget.column col => (col.id, none)
  | OverTarget.card overId => findTargetGo sourceColumnId overId ("", none) boards
  | OverTarget.zone _ => ("", none)

/-- `handleDragEnd` from `MultiBoardDragDrop.tsx`, as the `onCardDrop` call it
emits.  It proceeds only when both the scanned source column id and the
resolved target id are truthy; a cross-column result emits directly, while a
same-column result with a concrete index looks the dragged card up in the
first flat column with the source id (`boards.flatMap(...).find(...)`) and
emits only when that current index exists and differs from the new index. -/
def handleDragEndMulti (boards : List KBoard) (activeId : String)
    (over : Option OverTarget) : Option MoveEmit :=
  match over with
  | none => none
  | some ov =>
    let sourceColumnId := findSourceColumnId boards activeId
    let res := resolveTargetMulti boards sourceColumnId ov
    let targetColumnId := res.1
    if sourceColumnId != "" && targetColumnId != "" then
      if sourceColumnId != targetColumnId then
        some ⟨activeId, sourceColumnId, targetColumnId, res.2.map Int.ofNat⟩
      else
        match res.2 with
        | none => none
        | some k =>
          let sourceColumn :=
            (allColumns boards).find? (fun col => col.id == sourceColumnId)
          let currentIndex : Int :=
            match sourceColumn with
            | none => -1
            | some sc =>
              match findIndex (fun card => card.id == activeId) sc.cards with
              | some j => (j : Int)
              | none => -1
          if currentIndex != -1 && currentIndex != (k : Int) then
            some ⟨activeId, sourceColumnId, targetColumnId, some (k : Int)⟩
          else none
    else none

/-- An external column record with its accessor results: `s_column_id` /
`m_column_id` value, `m_column_parent` value (multi mode only), sort
attribute value (`Big.toNumber()`, embedded as `Rat`), content widget tag,
and the opaque record itself. -/
structure ColumnRecord where
  id : Option String
  parent : Option String := none
  sort : Option Rat
  content : Option Nat
  item : Nat
deriving DecidableEq, Repr

/-- An external card record with its accessor results. -/
structure CardRecord where
  id : Option String
  parent : Option String
  sort : Option Rat
  content : Option Nat
  item : Nat
deriving DecidableEq, Repr

/-- An external board record with its accessor results (multi mode). -/
structure BoardRecord where
  id : Option String
  sort : Option Rat
  content : Option Nat
  item : Nat
deriving DecidableEq, Repr

/-- JS stable `Array.prototype.sort` with comparator `keyA - keyB` (ES2019+
guarantees stability), embedded as a merge sort on the key ordering. -/
def stableSortByKey (key : α → Rat) (l : List α) : List α :=
  l.mergeSort (fun a b => decide (key a ≤ key b))

/-- JS `Map.get`. -/
def mapLookup (m : List (String × String)) (k : String) : Option String :=
  (m.find? (fun p => p.1 == k)).map (·.2)

/-- JS `Map.set`: replace the value of an existing key in place, else append. -/
def mapSet (m : List (String × String)) (k v : String) : List (String × String) :=
  if m.any (fun p => p.1 == k) then m.map (fun p => if p.1 == k then (k, v) else p)
  else m ++ [(k, v)]

/-- JS `Map.delete` / `Set.delete` of a key. -/
def mapDelete (m : List (String × String)) (k : String) : List (String × String) :=
  m.filter (fun p => p.1 != k)

/-- JS `Set.add`. -/
def setAdd (s : List String) (k : String) : List String :=
  if s.contains k then s else s ++ [k]

/-- JS `Set.delete`. -/
def setDelete (s : List String) (k : String) : List String :=
  s.filter (fun x => x != k)

/-- The cards of one column as built inside `getColumns` (`SingleBoard.tsx`)
and `getBoards` (`MultiBoard.tsx`): filter the card records to this column's
children (`s_card_parent` value, `""` when missing, compared to the column
id), stable-sort them ascending by sort value (`|| 0` for missing), then map
them through `createCard` with the cache state. -/
def cardsForColumn (cardRecs : List CardRecord) (columnId : String)
    (cachedCardContent : List (String × String)) (cardsUsingCache : List String) :
    List KCard :=
  (stableSortByKey (fun c => c.sort.getD 0)
      (cardRecs.filter (fun c => c.parent.getD "" == columnId))).map
    (fun cardRec =>
      let cardId := cardRec.id.getD ""
      createCard cardRec.item cardId columnId cardRec.content
        (cardsUsingCache.contains cardId) (mapLookup cachedCardContent cardId))

/-- The column object `getColumns` builds from one column record before
sorting: its id (`""` when missing), its cards (`cardsForColumn`), and its
numeric sort value (`|| 0` for a missing sort key). -/
def mkColumn (cardRecs : List CardRecord) (cachedCardContent : List (String × String))
    (cardsUsingCache : List String) (columnRec : ColumnRecord) : KanbanColumn :=
  let columnId := columnRec.id.getD ""
  { id := columnId
    title := columnRec.content.getD 0
    cards := cardsForColumn cardRecs columnId cachedCardContent cardsUsingCache
    sortValue := columnRec.sort.getD 0 }

/-- `getColumns` from `SingleBoard.tsx`: map every column record to a column
object, then stable-sort the column objects by their sort value. -/
def getColumns (columnRecs : List ColumnRecord) (cardRecs : List CardRecord)
    (cachedCardContent : List (String × String)) (cardsUsingCache : List String) :
    List KanbanColumn :=
  stableSortByKey (fun col => col.sortValue)
    (columnRecs.map (mkColumn cardRecs cachedCardContent cardsUsingCache))

/-- The column object `getBoards` builds from one (already sorted) column
record: in multi mode the column object carries no sort value of its own. -/
def mkColumnMulti (cardRecs : List CardRecord)
    (cachedCardContent : List (String × String)) (cardsUsingCache : List String)
    (columnRec : ColumnRecord) : KanbanColumn :=
  let columnId := columnRec.id.getD ""
  { id := columnId
    title := columnRec.content.getD 0
    cards := cardsForColumn cardRecs columnId cachedCardContent cardsUsingCache }

/-- The board object `getBoards` builds from one board record before sorting:
its child column records are filtered by parent id, stable-sorted by sort
value, and mapped to column objects. -/
def mkBoard (columnRecs : List ColumnRecord) (cardRecs : List CardRecord)
    (cachedCardContent : List (String × String)) (cardsUsingCache : List String)
    (boardRec : BoardRecord) : KBoard :=
  let boardId := boardRec.id.getD ""
  { id := boardId
    title := boardRec.content.getD 0
    columns := (stableSortByKey (fun c => c.sort.getD 0)
        (columnRecs.filter (fun c => c.parent.getD "" == boardId))).map
      (mkColumnMulti cardRecs cachedCardContent cardsUsingCache)
    sortValue := boardRec.sort.getD 0 }

/-- `getBoards` from `MultiBoard.tsx`: per board record, filter its child
column records, stable-sort them by sort value, build each column's cards as
in the single-board mode, and finally stable-sort the board objects by their
sort value. -/
def getBoards (boardRecs : List BoardRecord) (columnRecs : List ColumnRecord)
    (cardRecs : List CardRecord) (cachedCardContent : List (String × String))
    (cardsUsingCache : List String) : List KBoard :=
  stableSortByKey (fun b => b.sortValue)
    (boardRecs.map (mkBoard columnRecs cardRecs cachedCardContent cardsUsingCache))

/-- The change payload written to `changeJSON` on a committed move. -/
structure ChangePayload where
  cardId : String
  oldParentColumnId : String
  newParentColumnId : String
deriving DecidableEq, Repr

/-- The order payload entries written to `sortOrderJSON`:
`targetColumn.cards.map((card, index) => ({cardId: card.id, order: index}))`,
embedded as `(cardId, order)` pairs built by a map-with-index from `i`. -/
def sortOrderData (cards : List KCard) (i : Nat) : List (String × Nat) :=
  match cards with
  | [] => []
  | c :: cs => (c.id, i) :: sortOrderData cs (i + 1)

/-- The order payload for a destination column's post-move card array. -/
def buildSortOrderData (cards : List KCard) : List (String × Nat) :=
  sortOrderData cards 0

/-- The order payload produced by the single-board `handleCardDrop`
(`SingleBoard.tsx`): the post-move tree's target column (first `find` by id)
mapped to `(cardId, order)` pairs; nothing is written when the target column
is not found. -/
def sortOrderPayloadSingle (columns : List KanbanColumn)
    (cardId sourceColumnId targetColumnId : String) (newIndex : Option Nat) :
    Option (List (String × Nat)) :=
  let newColumns := performOptimisticCardMove columns cardId sourceColumnId targetColumnId newIndex
  (newColumns.find? (fun col => col.id == targetColumnId)).map
    (fun targetColumn => buildSortOrderData targetColumn.cards)

/-- The order payload produced by the multi-board `handleCardDrop`
(`MultiBoard.tsx`): the target column is the first column with the target id
scanning the post-move boards in order (loop with break). -/
def sortOrderPayloadMulti (boards : List KBoard)
    (cardId sourceColumnId targetColumnId : String) (newIndex : Option Nat) :
    Option (List (String × Nat)) :=
  let newBoards := performOptimisticCardMoveMulti boards cardId sourceColumnId targetColumnId newIndex
  (newBoards.findSome? (fun board =>
    board.columns.find? (fun col => col.id == targetColumnId))).map
    (fun targetColumn => buildSortOrderData targetColumn.cards)

/-- The single-board widget state touched by `handleCardDrop` and the
reconciliation effect: the optimistic override and the card content cache
(`useCardCache`). -/
structure SingleState where
  optimisticColumns : Option (List KanbanColumn)
  cachedCardContent : List (String × String)
  cardsUsingCache : List String
deriving DecidableEq, Repr

/-- The multi-board widget state (optimistic boards plus the same cache). -/
structure MultiState where
  optimisticBoards : Option (List KBoard)
  cachedCardContent : List (String × String)
  cardsUsingCache : List String
deriving DecidableEq, Repr

/-- `clearCardCache` from `useCardCache.ts` applied to each id in order
(`cardsUsingCache.forEach(cardId => clearCardCache(cardId))`): every id is
deleted from both the content map and the using-cache set. -/
def clearCachesFor (ids : List String) (m : List (String × String))
    (s : List String) : List (String × String) × List String :=
  ids.foldl (fun acc id => (mapDelete acc.1 id, setDelete acc.2 id)) (m, s)

/-- Everything `handleCardDrop` produces: the final component state, the two
payload values written on the success path, and whether the commit trigger
(`onCardDrop.execute`) ran. -/
structure DropOutcome (σ : Type) where
  state : σ
  changePayload : Option ChangePayload
  sortOrderPayload : Option (List (String × Nat))
  triggered : Bool
deriving Repr

/-- `handleCardDrop` from `SingleBoard.tsx`.  Steps: (1) snapshot the card's
DOM innerHTML into the cache when the element exists (`snapshot`), (2) mark
the card as using cache and install the optimistic move of the currently
displayed tree, then in a `try` block write the change payload, write the
order payload when the target column exists, and fire the action when it
`canExecute` (`triggerReady`).  `extThrows` models any exception thrown
inside the `try`; the `catch` clears the optimistic override and this card's
cache entry, and the exception is swallowed. -/
def handleCardDrop (st : SingleState) (baseColumns : List KanbanColumn)
    (cardId sourceColumnId targetColumnId : String) (newIndex : Option Nat)
    (snapshot : Option String) (triggerReady : Bool) (extThrows : Bool) :
    DropOutcome SingleState :=
  let cached := match snapshot with
    | some html => mapSet st.cachedCardContent cardId html
    | none => st.cachedCardContent
  let usingSet := setAdd st.cardsUsingCache cardId
  let currentColumns := st.optimisticColumns.getD baseColumns
  let newColumns :=
    performOptimisticCardMove currentColumns cardId sourceColumnId targetColumnId newIndex
  let st1 : SingleState :=
    { optimisticColumns := some newColumns, cachedCardContent := cached, cardsUsingCache := usingSet }
  if extThrows then
    { state := { optimisticColumns := none
                 cachedCardContent := mapDelete st1.cachedCardContent cardId
                 cardsUsingCache := setDelete st1.cardsUsingCache cardId }
      changePayload := none
      sortOrderPayload := none
      triggered := false }
  else
    { state := st1
      changePayload := some ⟨cardId, sourceColumnId, targetColumnId⟩
      sortOrderPayload := (newColumns.find? (fun col => col.id == targetColumnId)).map
        (fun targetColumn => buildSortOrderData targetColumn.cards)
      triggered := triggerReady }

/-- `handleCardDrop` from `MultiBoard.tsx`: same pipeline over boards. -/
def handleCardDropMulti (st : MultiState) (baseBoards : List KBoard)
    (cardId sourceColumnId targetColumnId : String) (newIndex : Option Nat)
    (snapshot : Option String) (triggerReady : Bool) (extThrows : Bool) :
    DropOutcome MultiState :=
  let cached := match snapshot with
    | some html => mapSet st.cachedCardContent cardId html
    | none => st.cachedCardContent
  let usingSet := setAdd st.cardsUsingCache cardId
  let currentBoards := st.optimisticBoards.getD baseBoards
  let newBoards :=
    performOptimisticCardMoveMulti currentBoards cardId sourceColumnId targetColumnId newIndex
  let st1 : MultiState :=
    { optimisticBoards := some newBoards, cachedCardContent := cached, cardsUsingCache := usingSet }
  if extThrows then
    { state := { optimisticBoards := none
                 cachedCardContent := mapDelete st1.cachedCardContent cardId
                 cardsUsingCache := setDelete st1.cardsUsingCache cardId }
      changePayload := none
      sortOrderPayload := none
      triggered := false }
  else
    { state := st1
      changePayload := some ⟨cardId, sourceColumnId, targetColumnId⟩
      sortOrderPayload := (newBoards.findSome? (fun board =>
        board.columns.find? (fun col => col.id == targetColumnId))).map
        (fun targetColumn => buildSortOrderData targetColumn.cards)
      triggered := triggerReady }

/-- The structural match test of the single-board reconciliation effect
(`SingleBoard.tsx`): every optimistic column must have a same-id base column
(first `find` by id) whose card array has the same length and pointwise equal
card ids (the pointwise check runs only under the length guard, so the `zip`
is exact). -/
def structuralMatch (optCols baseCols : List KanbanColumn) : Bool :=
  optCols.all (fun optCol =>
    match baseCols.find? (fun col => col.id == optCol.id) with
    | none => false
    | some baseCol =>
      baseCol.cards.length == optCol.cards.length &&
      (baseCol.cards.zip optCol.cards).all (fun p => p.1.id == p.2.id))

/-- The structural match test of the multi-board reconciliation effect
(`MultiBoard.tsx`): every optimistic board must have a same-id base board
with the same column count, and every base column of it a same-id optimistic
column with the same card-id sequence. -/
def structuralMatchMulti (optBoards baseBoards : List KBoard) : Bool :=
  optBoards.all (fun optBoard =>
    match baseBoards.find? (fun b => b.id == optBoard.id) with
    | none => false
    | some baseBoard =>
      baseBoard.columns.length == optBoard.columns.length &&
      baseBoard.columns.all (fun baseCol =>
        match optBoard.columns.find? (fun col => col.id == baseCol.id) with
        | none => false
        | some optCol =>
          baseCol.cards.length == optCol.cards.length &&
          (baseCol.cards.zip optCol.cards).all (fun p => p.1.id == p.2.id)))

/-- What one run of the reconciliation effect does besides updating state. -/
inductive ReconcileEffect where
  /-- The pending override was cleared (match branch). -/
  | cleared : ReconcileEffect
  /-- A fallback timer with the given delay in ms was (re)started. -/
  | timerStarted (ms : Nat) : ReconcileEffect
  /-- No pending override existed; nothing happened. -/
  | idle : ReconcileEffect
deriving DecidableEq, Repr

/-- One run of the single-board reconciliation `useEffect` (`SingleBoard.tsx`)
against a freshly rebuilt authoritative `baseColumns`: with a pending
override present, a structural match clears the override and releases every
cached entry of the cards marked as using cache; otherwise the state is kept
and a 3000 ms fallback timer is started. -/
def reconcileSingle (st : SingleState) (baseColumns : List KanbanColumn) :
    SingleState × ReconcileEffect :=
  match st.optimisticColumns with
  | none => (st, ReconcileEffect.idle)
  | some optCols =>
    if structuralMatch optCols baseColumns then
      let c := clearCachesFor st.cardsUsingCache st.cachedCardContent st.cardsUsingCache
      ({ optimisticColumns := none, cachedCardContent := c.1, cardsUsingCache := c.2 },
        ReconcileEffect.cleared)
    else (st, ReconcileEffect.timerStarted 3000)

/-- One run of the multi-board reconciliation `useEffect` (`MultiBoard.tsx`). -/
def reconcileMulti (st : MultiState) (baseBoards : List KBoard) :
    MultiState × ReconcileEffect :=
  match st.optimisticBoards with
  | none => (st, ReconcileEffect.idle)
  | some optBoards =>
    if structuralMatchMulti optBoards baseBoards then
      let c := clearCachesFor st.cardsUsingCache st.cachedCardContent st.cardsUsingCache
      ({ optimisticBoards := none, cachedCardContent := c.1, cardsUsingCache := c.2 },
        ReconcileEffect.cleared)
    else (st, ReconcileEffect.timerStarted 3000)

/-- The callback of the 3000 ms fallback timer started by the single-board
reconciliation effect: discard the pending override and release the cached
content of every card marked as using cache. -/
def reconcileTimerFire (st : SingleState) : SingleState :=
  let c := clearCachesFor st.cardsUsingCache st.cachedCardContent st.cardsUsingCache
  { optimisticColumns := none, cachedCardContent := c.1, cardsUsingCache := c.2 }

/-- The fallback timer scheduling of `useCardCache.ts`: whenever the set of
cards using cached content is non-empty, a 3000 ms timer is armed. -/
def useCardCacheTimer (cardsUsingCache : List String) : Option Nat :=
  if cardsUsingCache.isEmpty then none else some 3000

/-- The callback of the `useCardCache.ts` fallback timer: clear every cached
entry of the cards in the using-cache set. -/
def cardCacheTimerFire (m : List (String × String)) (s : List String) :
    List (String × String) × List String :=
  clearCachesFor s m s

theorem findIndex_eq_none {p : α → Bool} {l : List α} :
    findIndex p l = none ↔ ∀ a ∈ l, p a = false := by
  induction l with
  | nil => simp [findIndex]
  | cons a as ih =>
    by_cases h : p a
    · simp [findIndex, h]
    · simp [findIndex, h, ih]

theorem findIndex_append_first {p : α → Bool} {l₁ : List α} {x : α} (l₂ : List α)
    (h₁ : ∀ y ∈ l₁, p y = false) (hx : p x = true) :
    findIndex p (l₁ ++ x :: l₂) = some l₁.length := by
  induction l₁ with
  | nil => simp [findIndex, hx]
  | cons a as ih =>
    have ha : p a = false := h₁ a (by simp)
    have := ih (fun y hy => h₁ y (by simp [hy]))
    simp [findIndex, ha, this]

theorem findIndex_some_split {p : α → Bool} {l : List α} {i : Nat}
    (h : findIndex p l = some i) :
    ∃ l₁ x l₂, l = l₁ ++ x :: l₂ ∧ l₁.length = i ∧ p x = true ∧
      ∀ y ∈ l₁, p y = false := by
  induction l generalizing i with
  | nil => simp [findIndex] at h
  | cons a as ih =>
    by_cases ha : p a
    · have h0 : (0 : Nat) = i := by simpa [findIndex, ha] using h
      exact ⟨[], a, as, by simp, by simp [← h0], ha, by simp⟩
    · simp only [findIndex, ha, if_neg, Bool.false_eq_true, not_false_iff,
        Option.map_eq_some'] at h
      obtain ⟨j, hj, hji⟩ := h
      obtain ⟨l₁, x, l₂, rfl, hl, hx, hall⟩ := ih hj
      refine ⟨a :: l₁, x, l₂, rfl, by simp [hl, hji], hx, ?_⟩
      intro y hy
      rcases List.mem_cons.mp hy with rfl | hy
      · exact eq_false_of_ne_true ha
      · exact hall y hy

theorem get?_append_len (l₁ : List α) (x : α) (l₂ : List α) :
    (l₁ ++ x :: l₂).get? l₁.length = some x := by
  induction l₁ with
  | nil => rfl
  | cons a as ih => simpa using ih

theorem set_append_len (l₁ : List α) (x c : α) (l₂ : List α) :
    (l₁ ++ x :: l₂).set l₁.length c = l₁ ++ c :: l₂ := by
  induction l₁ with
  | nil => rfl
  | cons a as ih => simp [ih]

theorem removeAt_append_len (l₁ : List α) (x : α) (l₂ : List α) :
    removeAt (l₁ ++ x :: l₂) l₁.length = l₁ ++ l₂ := by
  induction l₁ with
  | nil => rfl
  | cons a as ih => simpa [removeAt] using ih

theorem get?_set_ne {l : List α} {i j : Nat} (h : i ≠ j) (c : α) :
    (l.set i c).get? j = l.get? j := by
  simp [List.get?_eq_getElem?, List.getElem?_set_ne h]

theorem length_insertAt {i : Nat} {a : α} {l : List α} (h : i ≤ l.length) :
    (insertAt i a l).length = l.length + 1 :=
  List.length_insertIdx i l h

theorem get?_insertAt_self {i : Nat} {a : α} {l : List α} (h : i ≤ l.length) :
    (insertAt i a l).get? i = some a := by
  have hlt : i < (insertAt i a l).length := by
    rw [length_insertAt h]; exact Nat.lt_succ_of_le h
  rw [List.get?_eq_getElem?, List.getElem?_eq_getElem hlt]
  exact congrArg some (List.getElem_insertIdx_self l a i h)

theorem find?_eq_of_nodup_keys {β : Type _} [BEq β] [LawfulBEq β] {f : α → β}
    {l : List α} (hnd : (l.map f).Nodup) {x : α} (hx : x ∈ l) {a : β}
    (ha : f x = a) : l.find? (fun y => f y == a) = some x := by
  induction l with
  | nil => cases hx
  | cons b bs ih =>
    rcases List.mem_cons.mp hx with rfl | hx
    · simp [List.find?, ha]
    · have hnd2 := hnd
      rw [List.map_cons, List.nodup_cons] at hnd2
      have hne : f b ≠ a := by
        intro hba
        have hmem : f x ∈ bs.map f := List.mem_map_of_mem f hx
        rw [ha, ← hba] at hmem
        exact hnd2.1 hmem
      have hbeq : (f b == a) = false := by simpa using hne
      simp only [List.find?, hbeq]
      exact ih hnd2.2 hx

theorem allColumns_cons (b : KBoard) (bs : List KBoard) :
    allColumns (b :: bs) = b.columns ++ allColumns bs := by
  simp [allColumns]

theorem lastIdxCol_eq_none {cols : List KanbanColumn} {x : String} :
    lastIdxCol cols x = none ↔ ∀ c ∈ cols, c.id ≠ x := by
  induction cols with
  | nil => simp [lastIdxCol]
  | cons c cs ih =>
    constructor
    · intro h
      rw [lastIdxCol] at h
      rcases h2 : lastIdxCol cs x with _ | j
      · rw [h2] at h
        intro y hy
        rcases List.mem_cons.mp hy with rfl | hy
        · intro hid
          rw [if_pos (by simpa using hid)] at h
          cases h
        · exact (ih.mp h2) y hy
      · rw [h2] at h; cases h
    · intro hall
      have htail : lastIdxCol cs x = none :=
        ih.mpr (fun y hy => hall y (List.mem_cons_of_mem _ hy))
      have hhead : (c.id == x) = false := by
        simpa using hall c (List.mem_cons_self c cs)
      rw [lastIdxCol, htail, hhead]
      rfl

theorem lastColPos_eq_none {boards : List KBoard} {x : String} :
    lastColPos boards x = none ↔ ∀ c ∈ allColumns boards, c.id ≠ x := by
  induction boards with
  | nil => simp [lastColPos, allColumns]
  | cons b bs ih =>
    constructor
    · intro h
      rw [lastColPos] at h
      rcases h2 : lastColPos bs x with _ | p
      · rw [h2] at h
        have h3 : lastIdxCol b.columns x = none := by
          rcases h4 : lastIdxCol b.columns x with _ | j
          · rfl
          · rw [h4] at h; cases h
        intro y hy
        rw [allColumns_cons] at hy
        rcases List.mem_append.mp hy with h5 | h5
        · exact lastIdxCol_eq_none.mp h3 y h5
        · exact (ih.mp h2) y h5
      · rw [h2] at h; cases h
    · intro hall
      have hbs : lastColPos bs x = none := ih.mpr (fun c hc =>
        hall c (by rw [allColumns_cons]; exact List.mem_append_right _ hc))
      have hb : lastIdxCol b.columns x = none := lastIdxCol_eq_none.mpr (fun c hc =>
        hall c (by rw [allColumns_cons]; exact List.mem_append_left _ hc))
      rw [lastColPos, hbs, hb]
      rfl

theorem lastIdxCol_get {cols : List KanbanColumn} {x : String} {j : Nat}
    (h : lastIdxCol cols x = some j) :
    ∃ c, cols.get? j = some c ∧ c.id = x ∧ c ∈ cols := by
  induction cols generalizing j with
  | nil => simp [lastIdxCol] at h
  | cons c cs ih =>
    rw [lastIdxCol] at h
    rcases h2 : lastIdxCol cs x with _ | j2
    · rw [h2] at h
      by_cases hc : (c.id == x) = true
      · rw [if_pos hc] at h
        obtain rfl : (0 : Nat) = j := by simpa using h
        exact ⟨c, rfl, by simpa using hc, List.mem_cons_self c cs⟩
      · rw [if_neg hc] at h; cases h
    · rw [h2] at h
      obtain rfl : j2 + 1 = j := by simpa using h
      obtain ⟨c2, hg, hid, hmem⟩ := ih h2
      exact ⟨c2, by simpa using hg, hid, List.mem_cons_of_mem _ hmem⟩

theorem lastColPos_colAt {boards : List KBoard} {x : String} {p : Nat × Nat}
    (h : lastColPos boards x = some p) :
    ∃ c, colAt boards p = some c ∧ c.id = x ∧ c ∈ allColumns boards := by
  induction boards generalizing p with
  | nil => simp [lastColPos] at h
  | cons b bs ih =>
    rw [lastColPos] at h
    rcases h2 : lastColPos bs x with _ | p2
    · rw [h2] at h
      rcases hj : lastIdxCol b.columns x with _ | j
      · rw [hj] at h; cases h
      · rw [hj] at h
        obtain rfl : ((0 : Nat), j) = p := by simpa using h
        obtain ⟨c, hg, hid, hmem⟩ := lastIdxCol_get hj
        refine ⟨c, by simpa [colAt] using hg, hid, ?_⟩
        rw [allColumns_cons]
        exact List.mem_append_left _ hmem
    · rw [h2] at h
      obtain rfl : (p2.1 + 1, p2.2) = p := by simpa using h
      obtain ⟨c, hg, hid, hmem⟩ := ih h2
      refine ⟨c, by simpa [colAt] using hg, hid, ?_⟩
      rw [allColumns_cons]
      exact List.mem_append_right _ hmem

/-- C3: for every input tree and every move request whose source column id,
target column id, or card id is absent from that tree, the optimistic move
(`performOptimisticCardMove`, single- and multi-board) returns the input tree
unchanged — a silent no-op with no error raised. -/
theorem C3_move_not_found_noop
    (columns : List KanbanColumn) (boards : List KBoard)
    (cardId src tgt : String) (i : Option Nat)
    (h : (∀ col ∈ columns, col.id ≠ src) ∨ (∀ col ∈ columns, col.id ≠ tgt) ∨
         (∀ col ∈ columns, ∀ card ∈ col.cards, card.id ≠ cardId))
    (hm : (∀ col ∈ allColumns boards, col.id ≠ src) ∨
          (∀ col ∈ allColumns boards, col.id ≠ tgt) ∨
          (∀ col ∈ allColumns boards, ∀ card ∈ col.cards, card.id ≠ cardId)) :
    performOptimisticCardMove columns cardId src tgt i = columns ∧
    performOptimisticCardMoveMulti boards cardId src tgt i = boards := by
  constructor
  · rcases h with h1 | h1 | h1
    · have hs : findIndex (fun col => col.id == src) columns = none :=
        findIndex_eq_none.mpr (fun a ha => by simpa using h1 a ha)
      rcases ht : findIndex (fun col => col.id == tgt) columns with _ | ti <;>
        simp [performOptimisticCardMove, hs, ht]
    · have ht : findIndex (fun col => col.id == tgt) columns = none :=
        findIndex_eq_none.mpr (fun a ha => by simpa using h1 a ha)
      rcases hs : findIndex (fun col => col.id == src) columns with _ | si <;>
        simp [performOptimisticCardMove, hs, ht]
    · rcases hs : findIndex (fun col => col.id == src) columns with _ | si
      · rcases ht : findIndex (fun col => col.id == tgt) columns with _ | ti <;>
          simp [performOptimisticCardMove, hs, ht]
      · rcases ht : findIndex (fun col => col.id == tgt) columns with _ | ti
        · simp [performOptimisticCardMove, hs, ht]
        · obtain ⟨l₁, x, l₂, hdec, hlen, hx, -⟩ := findIndex_some_split hs
          have hget : columns[si]? = some x := by
            rw [← List.get?_eq_getElem?, hdec, ← hlen]; exact get?_append_len l₁ x l₂
          have hxmem : x ∈ columns := by simp [hdec]
          have hcard : findIndex (fun card => card.id == cardId) x.cards = none :=
            findIndex_eq_none.mpr (fun c hc => by simpa using h1 x hxmem c hc)
          simp [performOptimisticCardMove, hs, ht, hget, hcard]
  · rcases hm with h1 | h1 | h1
    · have hs : lastColPos boards src = none := lastColPos_eq_none.mpr h1
      rcases ht : lastColPos boards tgt with _ | tp <;>
        simp [performOptimisticCardMoveMulti, hs, ht]
    · have ht : lastColPos boards tgt = none := lastColPos_eq_none.mpr h1
      rcases hs : lastColPos boards src with _ | sp <;>
        simp [performOptimisticCardMoveMulti, hs, ht]
    · rcases hs : lastColPos boards src with _ | sp
      · rcases ht : lastColPos boards tgt with _ | tp <;>
          simp [performOptimisticCardMoveMulti, hs, ht]
      · rcases ht : lastColPos boards tgt with _ | tp
        · simp [performOptimisticCardMoveMulti, hs, ht]
        · obtain ⟨c, hcat, hcid, hcmem⟩ := lastColPos_colAt hs
          have hcard : findIndex (fun card => card.id == cardId) c.cards = none :=
            findIndex_eq_none.mpr (fun cd hcd => by simpa using h1 c hcmem cd hcd)
          simp [performOptimisticCardMoveMulti, hs, ht, hcat, hcard]

/-- Witness for C3 at a concrete tree: moving a card id that exists nowhere
in the tree leaves both trees untouched. -/
theorem C3_witness :
    performOptimisticCardMove
        [{ id := "todo", title := 0, cards := [] }] "ghost" "todo" "todo" none =
      [{ id := "todo", title := 0, cards := [] }] ∧
    performOptimisticCardMoveMulti
        [{ id := "b", title := 0, columns := [{ id := "todo", title := 0, cards := [] }] }]
        "ghost" "todo" "todo" none =
      [{ id := "b", title := 0, columns := [{ id := "todo", title := 0, cards := [] }] }] :=
  C3_move_not_found_noop
    [{ id := "todo", title := 0, cards := [] }]
    [{ id := "b", title := 0, columns := [{ id := "todo", title := 0, cards := [] }] }]
    "ghost" "todo" "todo" none
    (Or.inr (Or.inr (by decide)))
    (Or.inr (Or.inr (by decide)))

theorem sortOrderData_fst (cards : List KCard) (i : Nat) :
    (sortOrderData cards i).map Prod.fst = cards.map (·.id) := by
  induction cards generalizing i with
  | nil => rfl
  | cons c cs ih => simp [sortOrderData, ih]

theorem sortOrderData_snd (cards : List KCard) (i : Nat) :
    (sortOrderData cards i).map Prod.snd = List.range' i cards.length := by
  induction cards generalizing i with
  | nil => rfl
  | cons c cs ih => simp [sortOrderData, List.range'_succ, ih]

/-- C4: for every committed move, the order payload produced by the commit
pipeline (single- and multi-board `handleCardDrop`) lists exactly the card id
sequence of the destination column of the post-move tree, annotated with the
contiguous, strictly increasing positions `0, 1, …, n-1`. -/
theorem C4_order_payload_complete
    (columns : List KanbanColumn) (boards : List KBoard)
    (cardId src tgt : String) (i : Option Nat)
    (tcol : KanbanColumn)
    (hcol : (performOptimisticCardMove columns cardId src tgt i).find?
        (fun col => col.id == tgt) = some tcol)
    (tcolM : KanbanColumn)
    (hcolM : (performOptimisticCardMoveMulti boards cardId src tgt i).findSome?
        (fun board => board.columns.find? (fun col => col.id == tgt)) = some tcolM) :
    sortOrderPayloadSingle columns cardId src tgt i =
        some (buildSortOrderData tcol.cards) ∧
    (buildSortOrderData tcol.cards).map Prod.fst = tcol.cards.map (·.id) ∧
    (buildSortOrderData tcol.cards).map Prod.snd = List.range tcol.cards.length ∧
    sortOrderPayloadMulti boards cardId src tgt i =
        some (buildSortOrderData tcolM.cards) ∧
    (buildSortOrderData tcolM.cards).map Prod.fst = tcolM.cards.map (·.id) ∧
    (buildSortOrderData tcolM.cards).map Prod.snd = List.range tcolM.cards.length := by
  refine ⟨?_, ?_, ?_, ?_, ?_, ?_⟩
  · simp [sortOrderPayloadSingle, hcol]
  · exact sortOrderData_fst tcol.cards 0
  · rw [List.range_eq_range']; exact sortOrderData_snd tcol.cards 0
  · simp [sortOrderPayloadMulti, hcolM]
  · exact sortOrderData_fst tcolM.cards 0
  · rw [List.range_eq_range']; exact sortOrderData_snd tcolM.cards 0

/-- Witness for C4: committing the move of the spec's first example scenario
(cardA from "todo" onto empty "done") produces the payload
`[(cardA, 0)]` in both modes. -/
theorem C4_witness :
    sortOrderPayloadSingle
        [{ id := "todo", title := 0,
           cards := [{ id := "cardA", content := CardContent.widget none, item := 0,
                       isUsingCache := false, key := "cardA-todo" }] },
         { id := "done", title := 1, cards := [] }]
        "cardA" "todo" "done" none = some [("cardA", 0)] ∧
    sortOrderPayloadMulti
        [{ id := "b", title := 0,
           columns := [{ id := "todo", title := 0,
                         cards := [{ id := "cardA", content := CardContent.widget none,
                                     item := 0, isUsingCache := false,
                                     key := "cardA-todo" }] },
                       { id := "done", title := 1, cards := [] }] }]
        "cardA" "todo" "done" none = some [("cardA", 0)] := by
  have h := C4_order_payload_complete
    [{ id := "todo", title := 0,
       cards := [{ id := "cardA", content := CardContent.widget none, item := 0,
                   isUsingCache := false, key := "cardA-todo" }] },
     { id := "done", title := 1, cards := [] }]
    [{ id := "b", title := 0,
       columns := [{ id := "todo", title := 0,
                     cards := [{ id := "cardA", content := CardContent.widget none,
                                 item := 0, isUsingCache := false,
                                 key := "cardA-todo" }] },
                   { id := "done", title := 1, cards := [] }] }]
    "cardA" "todo" "done" none
    { id := "done", title := 1,
      cards := [{ id := "cardA", content := CardContent.widget none, item := 0,
                  isUsingCache := false, key := "cardA-done" }] }
    (by decide)
    { id := "done", title := 1,
      cards := [{ id := "cardA", content := CardContent.widget none, item := 0,
                  isUsingCache := false, key := "cardA-done" }] }
    (by decide)
  exact ⟨h.1.trans (by decide), h.2.2.2.1.trans (by decide)⟩

theorem mapLookup_mapDelete (m : List (String × String)) (k : String) :
    mapLookup (mapDelete m k) k = none := by
  have h : (mapDelete m k).find? (fun p => p.1 == k) = none := by
    rw [List.find?_eq_none]
    intro x hx
    simp only [mapDelete] at hx
    have hne := List.of_mem_filter hx
    simp only [bne_iff_ne, ne_eq] at hne
    simpa using hne
  simp [mapLookup, h]

theorem mapLookup_mapDelete_none {m : List (String × String)} {id k : String}
    (h : mapLookup m id = none) : mapLookup (mapDelete m k) id = none := by
  have h2 : m.find? (fun p => p.1 == id) = none := by
    rcases h3 : m.find? (fun p => p.1 == id) with _ | v
    · exact h3
    · rw [mapLookup, h3] at h; cases h
  have h4 : (mapDelete m k).find? (fun p => p.1 == id) = none := by
    rw [List.find?_eq_none] at h2 ⊢
    intro x hx
    simp only [mapDelete] at hx
    exact h2 x (List.mem_of_mem_filter hx)
  simp [mapLookup, h4]

theorem not_mem_setDelete (s : List String) (k : String) : k ∉ setDelete s k := by
  intro h
  simp only [setDelete] at h
  have := List.of_mem_filter h
  simp at this

theorem mem_of_mem_setDelete {s : List String} {k id : String}
    (h : id ∈ setDelete s k) : id ∈ s := by
  simp only [setDelete] at h
  exact List.mem_of_mem_filter h

theorem clearCachesFor_cons (a : String) (as : List String)
    (m : List (String × String)) (s : List String) :
    clearCachesFor (a :: as) m s = clearCachesFor as (mapDelete m a) (setDelete s a) := by
  rfl

theorem clearCachesFor_fst_none {ids : List String}
    {m : List (String × String)} {s : List String} {id : String}
    (h : mapLookup m id = none) :
    mapLookup (clearCachesFor ids m s).1 id = none := by
  induction ids generalizing m s with
  | nil => exact h
  | cons a as ih =>
    rw [clearCachesFor_cons]
    exact ih (mapLookup_mapDelete_none h)

theorem clearCachesFor_fst_lookup {ids : List String}
    (m : List (String × String)) (s : List String) {id : String} (hid : id ∈ ids) :
    mapLookup (clearCachesFor ids m s).1 id = none := by
  induction ids generalizing m s with
  | nil => cases hid
  | cons a as ih =>
    rw [clearCachesFor_cons]
    rcases List.mem_cons.mp hid with rfl | hid
    · exact clearCachesFor_fst_none (mapLookup_mapDelete m id)
    · exact ih _ _ hid

theorem clearCachesFor_snd_subset {ids : List String}
    {m : List (String × String)} {s : List String} {id : String}
    (h : id ∈ (clearCachesFor ids m s).2) : id ∈ s := by
  induction ids generalizing m s with
  | nil => exact h
  | cons a as ih =>
    rw [clearCachesFor_cons] at h
    exact mem_of_mem_setDelete (ih h)

theorem clearCachesFor_snd_not_mem {ids : List String}
    (m : List (String × String)) (s : List String) {id : String} (hid : id ∈ ids) :
    id ∉ (clearCachesFor ids m s).2 := by
  induction ids generalizing m s with
  | nil => cases hid
  | cons a as ih =>
    rw [clearCachesFor_cons]
    rcases List.mem_cons.mp hid with rfl | hid
    · intro habs
      exact not_mem_setDelete s id (clearCachesFor_snd_subset habs)
    · exact ih _ _ hid

theorem clearCachesFor_self_snd (m : List (String × String)) (s : List String) :
    (clearCachesFor s m s).2 = [] := by
  rcases h : (clearCachesFor s m s).2 with _ | ⟨a, rest⟩
  · rfl
  · have ha : a ∈ (clearCachesFor s m s).2 := by rw [h]; simp
    have hmem : a ∈ s := clearCachesFor_snd_subset ha
    exact absurd ha (clearCachesFor_snd_not_mem m s hmem)

/-- C9: if any exception is thrown inside the `try` block of `handleCardDrop`
(building/sending the change and order payloads or invoking the commit
trigger), the `catch` discards the pending (optimistic) tree and releases the
cached presentation of the moved card, in both board modes: the displayed
tree falls back to the authoritative one, and the exception is swallowed (the
embedding of the handler is a total function into states, never an error). -/
theorem C9_commit_failure_reverts
    (st : SingleState) (stM : MultiState)
    (baseColumns : List KanbanColumn) (baseBoards : List KBoard)
    (cardId src tgt : String) (i : Option Nat) (snapshot : Option String)
    (ready : Bool) :
    ((handleCardDrop st baseColumns cardId src tgt i snapshot ready
        true).state.optimisticColumns = none) ∧
    (mapLookup (handleCardDrop st baseColumns cardId src tgt i snapshot ready
        true).state.cachedCardContent cardId = none) ∧
    (cardId ∉ (handleCardDrop st baseColumns cardId src tgt i snapshot ready
        true).state.cardsUsingCache) ∧
    ((handleCardDrop st baseColumns cardId src tgt i snapshot ready
        true).state.optimisticColumns.getD baseColumns = baseColumns) ∧
    ((handleCardDropMulti stM baseBoards cardId src tgt i snapshot ready
        true).state.optimisticBoards = none) ∧
    (mapLookup (handleCardDropMulti stM baseBoards cardId src tgt i snapshot ready
        true).state.cachedCardContent cardId = none) ∧
    (cardId ∉ (handleCardDropMulti stM baseBoards cardId src tgt i snapshot ready
        true).state.cardsUsingCache) := by
  refine ⟨rfl, ?_, ?_, rfl, rfl, ?_, ?_⟩
  · exact mapLookup_mapDelete _ cardId
  · exact not_mem_setDelete _ cardId
  · exact mapLookup_mapDelete _ cardId
  · exact not_mem_setDelete _ cardId

/-- C6: while a pending tree exists and the authoritative rebuild does not
structurally match it, the reconciliation effect keeps the state but starts a
3000 ms fallback timer whose firing clears the pending override and releases
all cached card content; the `useCardCache` hook additionally arms its own
3000 ms timer with the same clearing behaviour whenever any card is marked as
using cached content. -/
theorem C6_reconciliation_fallback_timer
    (st : SingleState) (baseColumns : List KanbanColumn)
    (optCols : List KanbanColumn)
    (hpend : st.optimisticColumns = some optCols)
    (hnomatch : structuralMatch optCols baseColumns = false) :
    (reconcileSingle st baseColumns).2 = ReconcileEffect.timerStarted 3000 ∧
    (reconcileSingle st baseColumns).1 = st ∧
    (reconcileTimerFire st).optimisticColumns = none ∧
    (∀ id ∈ st.cardsUsingCache,
      mapLookup (reconcileTimerFire st).cachedCardContent id = none) ∧
    (reconcileTimerFire st).cardsUsingCache = [] ∧
    (st.cardsUsingCache ≠ [] → useCardCacheTimer st.cardsUsingCache = some 3000) ∧
    (∀ id ∈ st.cardsUsingCache,
      mapLookup (cardCacheTimerFire st.cachedCardContent st.cardsUsingCache).1 id
        = none) ∧
    (cardCacheTimerFire st.cachedCardContent st.cardsUsingCache).2 = [] := by
  refine ⟨?_, ?_, rfl, ?_, ?_, ?_, ?_, ?_⟩
  · simp [reconcileSingle, hpend, hnomatch]
  · simp [reconcileSingle, hpend, hnomatch]
  · intro id hid
    exact clearCachesFor_fst_lookup _ _ hid
  · exact clearCachesFor_self_snd _ _
  · intro hne
    simp [useCardCacheTimer, hne]
  · intro id hid
    exact clearCachesFor_fst_lookup _ _ hid
  · exact clearCachesFor_self_snd _ _

/-- Witness for C6: a pending single-column tree that the (empty)
authoritative rebuild does not match arms the 3000 ms fallback, and the
timer's firing clears everything. -/
theorem C6_witness :
    (reconcileSingle
      { optimisticColumns := some [{ id := "todo", title := 0, cards := [] }]
        cachedCardContent := [("cardA", "<p>x</p>")]
        cardsUsingCache := ["cardA"] } []).2 = ReconcileEffect.timerStarted 3000 ∧
    (reconcileTimerFire
      { optimisticColumns := some [{ id := "todo", title := 0, cards := [] }]
        cachedCardContent := [("cardA", "<p>x</p>")]
        cardsUsingCache := ["cardA"] }).cardsUsingCache = [] := by
  have h := C6_reconciliation_fallback_timer
    { optimisticColumns := some [{ id := "todo", title := 0, cards := [] }]
      cachedCardContent := [("cardA", "<p>x</p>")]
      cardsUsingCache := ["cardA"] } []
    [{ id := "todo", title := 0, cards := [] }] rfl (by decide)
  exact ⟨h.1, h.2.2.2.2.1⟩

theorem zip_ids_all_of_map_eq {xs ys : List KCard}
    (h : xs.map (·.id) = ys.map (·.id)) :
    ((xs.zip ys).all (fun p => p.1.id == p.2.id)) = true := by
  induction xs generalizing ys with
  | nil => simp
  | cons x xs ih =>
    cases ys with
    | nil => simp at h
    | cons y ys =>
      simp only [List.map_cons, List.cons.injEq] at h
      simp [h.1, ih h.2]

theorem structuralMatch_of_pointwise {optCols baseCols : List KanbanColumn}
    (hnd : (baseCols.map (·.id)).Nodup)
    (h : ∀ optCol ∈ optCols, ∃ baseCol ∈ baseCols, baseCol.id = optCol.id ∧
        baseCol.cards.map (·.id) = optCol.cards.map (·.id)) :
    structuralMatch optCols baseCols = true := by
  rw [structuralMatch, List.all_eq_true]
  intro optCol hmem
  obtain ⟨baseCol, hbmem, hbid, hbcards⟩ := h optCol hmem
  have hfind : baseCols.find? (fun col => col.id == optCol.id) = some baseCol :=
    find?_eq_of_nodup_keys hnd hbmem hbid
  rw [hfind]
  have hlen : baseCol.cards.length = optCol.cards.length := by
    have := congrArg List.length hbcards
    simpa using this
  simp [hlen, zip_ids_all_of_map_eq hbcards]

theorem structuralMatchMulti_of_pointwise {optBoards baseBoards : List KBoard}
    (hnd : (baseBoards.map (·.id)).Nodup)
    (h : ∀ optBoard ∈ optBoards, ∃ baseBoard ∈ baseBoards,
        baseBoard.id = optBoard.id ∧
        baseBoard.columns.length = optBoard.columns.length ∧
        (optBoard.columns.map (·.id)).Nodup ∧
        ∀ baseCol ∈ baseBoard.columns, ∃ optCol ∈ optBoard.columns,
          optCol.id = baseCol.id ∧
          baseCol.cards.map (·.id) = optCol.cards.map (·.id)) :
    structuralMatchMulti optBoards baseBoards = true := by
  rw [structuralMatchMulti, List.all_eq_true]
  intro optBoard hmem
  obtain ⟨baseBoard, hbmem, hbid, hblen, hcnd, hcols⟩ := h optBoard hmem
  have hfind : baseBoards.find? (fun b => b.id == optBoard.id) = some baseBoard :=
    find?_eq_of_nodup_keys hnd hbmem hbid
  rw [hfind]
  simp only [hblen, beq_self_eq_true, Bool.true_and]
  rw [List.all_eq_true]
  intro baseCol hcmem
  obtain ⟨optCol, homem, hoid, hocards⟩ := hcols baseCol hcmem
  have hfind2 : optBoard.columns.find? (fun col => col.id == baseCol.id) = some optCol :=
    find?_eq_of_nodup_keys hcnd homem hoid
  rw [hfind2]
  have hlen : baseCol.cards.length = optCol.cards.length := by
    have := congrArg List.length hocards
    simpa using this
  simp [hlen, zip_ids_all_of_map_eq hocards]

/-- C5: whenever a pending (optimistic) tree exists and the authoritative
tree is rebuilt so that, column for column (and board for board in multi
mode), the same-id authoritative part carries the identical card-id sequence,
the reconciliation effect clears the pending override and releases the cached
content of every card marked as using cache, in both board modes.  (The id
uniqueness hypotheses reflect the data model's id-uniqueness invariant; the
code's `find`-based comparison needs them to pick the intended columns.) -/
theorem C5_reconciliation_convergence
    (st : SingleState) (baseColumns : List KanbanColumn)
    (optCols : List KanbanColumn)
    (hpend : st.optimisticColumns = some optCols)
    (hnd : (baseColumns.map (·.id)).Nodup)
    (hmatch : ∀ optCol ∈ optCols, ∃ baseCol ∈ baseColumns, baseCol.id = optCol.id ∧
        baseCol.cards.map (·.id) = optCol.cards.map (·.id))
    (stM : MultiState) (baseBoards : List KBoard) (optBoards : List KBoard)
    (hpendM : stM.optimisticBoards = some optBoards)
    (hndM : (baseBoards.map (·.id)).Nodup)
    (hmatchM : ∀ optBoard ∈ optBoards, ∃ baseBoard ∈ baseBoards,
        baseBoard.id = optBoard.id ∧
        baseBoard.columns.length = optBoard.columns.length ∧
        (optBoard.columns.map (·.id)).Nodup ∧
        ∀ baseCol ∈ baseBoard.columns, ∃ optCol ∈ optBoard.columns,
          optCol.id = baseCol.id ∧
          baseCol.cards.map (·.id) = optCol.cards.map (·.id)) :
    (reconcileSingle st baseColumns).1.optimisticColumns = none ∧
    (reconcileSingle st baseColumns).2 = ReconcileEffect.cleared ∧
    (∀ id ∈ st.cardsUsingCache,
      mapLookup (reconcileSingle st baseColumns).1.cachedCardContent id = none) ∧
    (reconcileSingle st baseColumns).1.cardsUsingCache = [] ∧
    (reconcileMulti stM baseBoards).1.optimisticBoards = none ∧
    (reconcileMulti stM baseBoards).2 = ReconcileEffect.cleared ∧
    (∀ id ∈ stM.cardsUsingCache,
      mapLookup (reconcileMulti stM baseBoards).1.cachedCardContent id = none) ∧
    (reconcileMulti stM baseBoards).1.cardsUsingCache = [] := by
  have hsm : structuralMatch optCols baseColumns = true :=
    structuralMatch_of_pointwise hnd hmatch
  have hsmM : structuralMatchMulti optBoards baseBoards = true :=
    structuralMatchMulti_of_pointwise hndM hmatchM
  refine ⟨?_, ?_, ?_, ?_, ?_, ?_, ?_, ?_⟩
  · simp [reconcileSingle, hpend, hsm]
  · simp [reconcileSingle, hpend, hsm]
  · intro id hid
    simp only [reconcileSingle, hpend, hsm, if_true]
    exact clearCachesFor_fst_lookup _ _ hid
  · simp only [reconcileSingle, hpend, hsm, if_true]
    exact clearCachesFor_self_snd _ _
  · simp [reconcileMulti, hpendM, hsmM]
  · simp [reconcileMulti, hpendM, hsmM]
  · intro id hid
    simp only [reconcileMulti, hpendM, hsmM, if_true]
    exact clearCachesFor_fst_lookup _ _ hid
  · simp only [reconcileMulti, hpendM, hsmM, if_true]
    exact clearCachesFor_self_snd _ _

/-- Witness for C5: after the spec's reconciliation scenario (pending
"done"=[cardA]; authoritative rebuild with the matching card-id sequence),
the pending override is cleared, the cached entry for cardA is gone, and the
using-cache set is emptied; same in multi mode. -/
theorem C5_witness :
    (reconcileSingle
      { optimisticColumns := some
          [{ id := "done", title := 1,
             cards := [{ id := "cardA", content := CardContent.widget none, item := 0,
                         isUsingCache := false, key := "cardA-done" }] }]
        cachedCardContent := [("cardA", "<p>x</p>")]
        cardsUsingCache := ["cardA"] }
      [{ id := "done", title := 1,
         cards := [{ id := "cardA", content := CardContent.widget none, item := 0,
                     isUsingCache := true, key := "cardA-done-cached" }] }]).1.optimisticColumns
      = none ∧
    mapLookup (reconcileSingle
      { optimisticColumns := some
          [{ id := "done", title := 1,
             cards := [{ id := "cardA", content := CardContent.widget none, item := 0,
                         isUsingCache := false, key := "cardA-done" }] }]
        cachedCardContent := [("cardA", "<p>x</p>")]
        cardsUsingCache := ["cardA"] }
      [{ id := "done", title := 1,
         cards := [{ id := "cardA", content := CardContent.widget none, item := 0,
                     isUsingCache := true, key := "cardA-done-cached" }] }]).1.cachedCardContent
      "cardA" = none ∧
    (reconcileMulti
      { optimisticBoards := some [{ id := "b", title := 0, columns := [] }]
        cachedCardContent := []
        cardsUsingCache := [] }
      [{ id := "b", title := 0, columns := [] }]).2 = ReconcileEffect.cleared := by
  have h := C5_reconciliation_convergence
    { optimisticColumns := some
        [{ id := "done", title := 1,
           cards := [{ id := "cardA", content := CardContent.widget none, item := 0,
                       isUsingCache := false, key := "cardA-done" }] }]
      cachedCardContent := [("cardA", "<p>x</p>")]
      cardsUsingCache := ["cardA"] }
    [{ id := "done", title := 1,
       cards := [{ id := "cardA", content := CardContent.widget none, item := 0,
                   isUsingCache := true, key := "cardA-done-cached" }] }]
    [{ id := "done", title := 1,
       cards := [{ id := "cardA", content := CardContent.widget none, item := 0,
                   isUsingCache := false, key := "cardA-done" }] }]
    rfl (by decide) (by decide)
    { optimisticBoards := some [{ id := "b", title := 0, columns := [] }]
      cachedCardContent := []
      cardsUsingCache := [] }
    [{ id := "b", title := 0, columns := [] }]
    [{ id := "b", title := 0, columns := [] }]
    rfl (by decide) (by decide)
  exact ⟨h.1, h.2.2.1 "cardA" (by simp), h.2.2.2.2.2.1⟩

theorem findIndex_isSome (p : α → Bool) (l : List α) :
    (findIndex p l).isSome = l.any p := by
  induction l with
  | nil => rfl
  | cons a as ih =>
    by_cases h : p a <;> simp [findIndex, h, ih]

theorem findColWithCard_of_find? {cols : List KanbanColumn} {overId : String} :
    (∀ col, cols.find? (fun col => col.cards.any (fun card => card.id == overId))
        = some col →
      ∃ k, findColWithCard cols overId = some (col.id, k) ∧
        findIndex (fun card => card.id == overId) col.cards = some k) ∧
    (cols.find? (fun col => col.cards.any (fun card => card.id == overId)) = none →
      findColWithCard cols overId = none) := by
  induction cols with
  | nil =>
    constructor
    · intro col h
      cases h
    · intro _
      rfl
  | cons c cs ih =>
    rcases hf : findIndex (fun card => card.id == overId) c.cards with _ | k
    · have hany : c.cards.any (fun card => card.id == overId) = false := by
        rw [← findIndex_isSome, hf]; rfl
      constructor
      · intro col h
        rw [List.find?_cons_of_neg _ (by simp [hany])] at h
        obtain ⟨k, h1, h2⟩ := ih.1 col h
        exact ⟨k, by rw [findColWithCard, hf]; exact h1, h2⟩
      · intro h
        rw [List.find?_cons_of_neg _ (by simp [hany])] at h
        rw [findColWithCard, hf]
        exact ih.2 h
    · have hany : c.cards.any (fun card => card.id == overId) = true := by
        rw [← findIndex_isSome, hf]; rfl
      constructor
      · intro col h
        rw [List.find?_cons_of_pos _ (by simp [hany])] at h
        obtain rfl : c = col := by simpa using h
        exact ⟨k, by rw [findColWithCard, hf], hf⟩
      · intro h
        rw [List.find?_cons_of_pos _ (by simp [hany])] at h
        cases h

theorem findSourceGo_stop (cardId acc : String) (bs : List KBoard)
    (h : acc ≠ "") : findSourceGo cardId acc bs = acc := by
  cases bs with
  | nil => rfl
  | cons b bs =>
    rw [findSourceGo]
    simp [h]

theorem findTargetGo_stop (src overId : String) (acc : String × Option Nat)
    (bs : List KBoard) (h : acc.1 ≠ "") : findTargetGo src overId acc bs = acc := by
  cases bs with
  | nil => rfl
  | cons b bs =>
    rw [findTargetGo]
    simp [h]

theorem scan_sync (cardId src : String) (bs : List KBoard) (o : Option Nat) :
    (findTargetGo src cardId ("", o) bs).1 = findSourceGo cardId "" bs ∧
    (findSourceGo cardId "" bs ≠ "" →
      ∃ c k, c ∈ allColumns bs ∧ c.id = findSourceGo cardId "" bs ∧
        findIndex (fun card => card.id == cardId) c.cards = some k ∧
        (findTargetGo src cardId ("", o) bs).2 =
          some (if src == c.id then k else k + 1)) := by
  induction bs generalizing o with
  | nil => exact ⟨rfl, fun h => absurd rfl h⟩
  | cons b bs ih =>
    rcases hf : b.columns.find?
        (fun col => col.cards.any (fun card => card.id == cardId)) with _ | col
    · have hfc : findColWithCard b.columns cardId = none := findColWithCard_of_find?.2 hf
      rw [findSourceGo, findTargetGo]
      simp only [bne_self_eq_false, Bool.false_eq_true, if_false, hf, hfc]
      obtain ⟨ih1, ih2⟩ := ih o
      refine ⟨ih1, fun hne => ?_⟩
      obtain ⟨c, k, hmem, hcid, hidx, htgt⟩ := ih2 hne
      exact ⟨c, k, by rw [allColumns_cons]; exact List.mem_append_right _ hmem,
        hcid, hidx, htgt⟩
    · obtain ⟨k, hfc, hidx⟩ := findColWithCard_of_find?.1 col hf
      have hcolmem : col ∈ b.columns := List.mem_of_find?_eq_some hf
      by_cases hcid : col.id = ""
      · rw [findSourceGo, findTargetGo]
        simp only [bne_self_eq_false, Bool.false_eq_true, if_false, hf, hfc, hcid]
        obtain ⟨ih1, ih2⟩ := ih (some (if src == "" then k else k + 1))
        refine ⟨ih1, fun hne => ?_⟩
        obtain ⟨c, k2, hmem, hcid2, hidx2, htgt⟩ := ih2 hne
        exact ⟨c, k2, by rw [allColumns_cons]; exact List.mem_append_right _ hmem,
          hcid2, hidx2, htgt⟩
      · rw [findSourceGo, findTargetGo]
        simp only [bne_self_eq_false, Bool.false_eq_true, if_false, hf, hfc]
        rw [findSourceGo_stop cardId col.id bs hcid,
          findTargetGo_stop src cardId _ bs (by simpa using hcid)]
        refine ⟨rfl, fun _ => ⟨col, k, ?_, rfl, hidx, rfl⟩⟩
        rw [allColumns_cons]
        exact List.mem_append_left _ hcolmem

/-- C1 counterexample: in the single-board drag-end handler
(`AdvancedKanbanBoard.tsx`), dropping `cardA` onto itself — a same-column
drop resolving to the card's own current index 0 — DOES emit a move (the
guard `targetColumnId !== activeColumnId || newIndex >= 0` passes because the
resolved index 0 is non-negative), contradicting the claim that no move is
emitted in both handlers. -/
theorem C1_counterexample :
    handleDragEnd
      [{ id := "todo", title := 0,
         cards := [{ id := "cardA", content := CardContent.widget none, item := 0,
                     isUsingCache := false, key := "cardA-todo" }] }]
      "cardA" "todo" (some (OverTarget.card "cardA"))
    = some { cardId := "cardA", sourceColumnId := "todo", targetColumnId := "todo",
             newIndex := some 0 } := by
  decide

/-- C1 (amended): only the multi-board drag-end handler has the idempotence
guard: dropping a card onto itself (its own current position, hence its own
column and index) never emits a move there, for any board tree with unique
column ids.  The single-board handler instead emits a (position-preserving)
move for any same-column drop that resolves a non-negative index, including
the card's own. -/
theorem C1_amended_multi_no_emit (boards : List KBoard) (activeId : String)
    (hnd : ((allColumns boards).map (·.id)).Nodup) :
    handleDragEndMulti boards activeId (some (OverTarget.card activeId)) = none := by
  obtain ⟨h1, h2⟩ := scan_sync activeId (findSourceGo activeId "" boards) boards none
  by_cases hs : findSourceGo activeId "" boards = ""
  · simp [handleDragEndMulti, findSourceColumnId, resolveTargetMulti, hs]
  · obtain ⟨c, k, hcmem, hcid, hidx, htgt⟩ := h2 hs
    have hres : findTargetGo (findSourceGo activeId "" boards) activeId ("", none) boards
        = (findSourceGo activeId "" boards, some k) := by
      rcases hfg : findTargetGo (findSourceGo activeId "" boards) activeId
          ("", none) boards with ⟨a, b⟩
      rw [hfg] at h1 htgt
      simp only at h1 htgt
      rw [← hcid] at htgt
      simp only [beq_self_eq_true, if_true] at htgt
      · rw [h1, htgt]
    have hfind : (allColumns boards).find?
        (fun col => col.id == findSourceGo activeId "" boards) = some c :=
      find?_eq_of_nodup_keys hnd hcmem hcid
    simp [handleDragEndMulti, findSourceColumnId, resolveTargetMulti, hres, hs,
      hfind, hidx]

/-- Witness for the amended C1: a concrete two-column board where dropping
cardA on itself emits nothing from the multi-board handler. -/
theorem C1_witness :
    handleDragEndMulti
      [{ id := "b1", title := 0,
         columns := [{ id := "todo", title := 0,
                       cards := [{ id := "cardA", content := CardContent.widget none,
                                   item := 0, isUsingCache := false,
                                   key := "cardA-todo" }] },
                     { id := "done", title := 1, cards := [] }] }]
      "cardA" (some (OverTarget.card "cardA")) = none :=
  C1_amended_multi_no_emit
    [{ id := "b1", title := 0,
       columns := [{ id := "todo", title := 0,
                     cards := [{ id := "cardA", content := CardContent.widget none,
                                 item := 0, isUsingCache := false,
                                 key := "cardA-todo" }] },
                   { id := "done", title := 1, cards := [] }] }]
    "cardA" (by decide)

theorem nodup_middle_not_mem {β : Type _} {l₁ l₂ : List β} {a : β}
    (h : (l₁ ++ a :: l₂).Nodup) : a ∉ l₁ ∧ a ∉ l₂ := by
  have h2 := List.nodup_middle.mp h
  rw [List.nodup_cons] at h2
  have hna := h2.1
  simp only [List.mem_append] at hna
  exact ⟨fun h1 => hna (Or.inl h1), fun h2 => hna (Or.inr h2)⟩

theorem find?_append_first {p : α → Bool} {m₁ : List α} {x : α} (m₂ : List α)
    (h₁ : ∀ y ∈ m₁, p y = false) (hx : p x = true) :
    (m₁ ++ x :: m₂).find? p = some x := by
  induction m₁ with
  | nil => simp [List.find?_cons_of_pos _ hx]
  | cons a as ih =>
    rw [List.cons_append, List.find?_cons_of_neg _ (by simp [h₁ a (by simp)])]
    exact ih (fun y hy => h₁ y (by simp [hy]))

/-- In a tree whose flattened card-id list has no duplicates, the column
holding the card with a given id is the only column whose cards match it, and
the cards before and after it in that column do not match it. -/
theorem unique_card_facts {cols : List KanbanColumn} {overId : String}
    {L₁ L₂ : List KanbanColumn} {colM : KanbanColumn} {m₁ m₂ : List KCard} {X : KCard}
    (hdec : cols = L₁ ++ colM :: L₂)
    (hcards : colM.cards = m₁ ++ X :: m₂)
    (hXid : X.id = overId)
    (hglob : ((cols.flatMap (·.cards)).map (·.id)).Nodup) :
    (∀ card ∈ m₁, card.id ≠ overId) ∧ (∀ card ∈ m₂, card.id ≠ overId) ∧
    (∀ c ∈ cols, c.cards.any (fun card => card.id == overId) = true → c = colM) := by
  have hre : (cols.flatMap (·.cards)).map (·.id) =
      ((L₁.flatMap (·.cards)).map (·.id) ++ m₁.map (·.id)) ++
        overId :: (m₂.map (·.id) ++ (L₂.flatMap (·.cards)).map (·.id)) := by
    rw [hdec, List.flatMap_append, List.flatMap_cons, hcards]
    simp [hXid]
  rw [hre] at hglob
  obtain ⟨hP, hQ⟩ := nodup_middle_not_mem hglob
  simp only [List.mem_append] at hP hQ
  have hA : overId ∉ (L₁.flatMap (·.cards)).map (·.id) := fun h => hP (Or.inl h)
  have hB : overId ∉ m₁.map (·.id) := fun h => hP (Or.inr h)
  have hC : overId ∉ m₂.map (·.id) := fun h => hQ (Or.inl h)
  have hD : overId ∉ (L₂.flatMap (·.cards)).map (·.id) := fun h => hQ (Or.inr h)
  refine ⟨?_, ?_, ?_⟩
  · intro card hmem heq
    exact hB (by rw [← heq]; exact List.mem_map_of_mem _ hmem)
  · intro card hmem heq
    exact hC (by rw [← heq]; exact List.mem_map_of_mem _ hmem)
  · intro c hc hany
    obtain ⟨Y, hY, hYid⟩ := List.any_eq_true.mp hany
    have hYid2 : Y.id = overId := by simpa using hYid
    rw [hdec] at hc
    rcases List.mem_append.mp hc with hc1 | hc2
    · exfalso
      apply hA
      rw [← hYid2]
      exact List.mem_map_of_mem _ (List.mem_flatMap.mpr ⟨c, hc1, hY⟩)
    · rcases List.mem_cons.mp hc2 with rfl | hc3
      · rfl
      · exfalso
        apply hD
        rw [← hYid2]
        exact List.mem_map_of_mem _ (List.mem_flatMap.mpr ⟨c, hc3, hY⟩)

theorem findCardAndColumn_of_unique {columns : List KanbanColumn} {overId : String}
    {colM : KanbanColumn} {X : KCard}
    (hmem : colM ∈ columns)
    (hfind : colM.cards.find? (fun c => c.id == overId) = some X)
    (honly : ∀ c ∈ columns,
      c.cards.any (fun card => card.id == overId) = true → c = colM) :
    findCardAndColumn columns overId = some (X, colM.id) := by
  induction columns with
  | nil => cases hmem
  | cons c cs ih =>
    rw [findCardAndColumn, List.findSome?_cons]
    rcases hany : c.cards.any (fun card => card.id == overId) with _ | _
    · have hnone : c.cards.find? (fun card => card.id == overId) = none := by
        rw [List.find?_eq_none]
        exact List.any_eq_false.mp hany
      rw [hnone]
      have hcm : colM ∈ cs := by
        rcases List.mem_cons.mp hmem with rfl | h2
        · exfalso
          have : X ∈ colM.cards := List.mem_of_find?_eq_some hfind
          have hp := List.find?_some hfind
          have : colM.cards.any (fun card => card.id == overId) = true :=
            List.any_eq_true.mpr ⟨X, List.mem_of_find?_eq_some hfind, hp⟩
          rw [hany] at this
          cases this
        · exact h2
      exact ih hcm (fun c2 hc2 h2 => honly c2 (List.mem_cons_of_mem _ hc2) h2)
    · obtain rfl : c = colM := honly c (List.mem_cons_self c cs) hany
      rw [hfind]
      rfl

theorem findTargetGo_idem (src overId : String) (bs : List KBoard)
    (colM : KanbanColumn) (k : Nat)
    (honly : ∀ c ∈ allColumns bs,
      c.cards.any (fun card => card.id == overId) = true → c = colM)
    (hidx : findIndex (fun card => card.id == overId) colM.cards = some k) :
    findTargetGo src overId (colM.id, some (if src == colM.id then k else k + 1)) bs
      = (colM.id, some (if src == colM.id then k else k + 1)) := by
  induction bs with
  | nil => rfl
  | cons b bs ih =>
    by_cases hid : colM.id = ""
    · rw [findTargetGo]
      simp only [hid, bne_self_eq_false, Bool.false_eq_true, if_false]
      have ih2 := ih (fun c hc h =>
        honly c (by rw [allColumns_cons]; exact List.mem_append_right _ hc) h)
      rw [hid] at ih2
      rcases hf : b.columns.find?
          (fun col => col.cards.any (fun card => card.id == overId)) with _ | c0
      · rw [findColWithCard_of_find?.2 hf]
        exact ih2
      · obtain ⟨k0, hfc, hidx0⟩ := findColWithCard_of_find?.1 c0 hf
        have hceq : c0 = colM := honly c0
          (by rw [allColumns_cons];
              exact List.mem_append_left _ (List.mem_of_find?_eq_some hf))
          (by have := List.find?_some hf; simpa using this)
        rw [hceq] at hfc hidx0
        have hk : k0 = k := by rw [hidx0] at hidx; simpa using hidx
        rw [hk] at hfc
        simp only [hfc, hid]
        exact ih2
    · exact findTargetGo_stop src overId _ _ (by simpa using hid)

theorem findTargetGo_of_unique (src overId : String) (bs : List KBoard)
    (colM : KanbanColumn) (k : Nat)
    (hmem : colM ∈ allColumns bs)
    (honly : ∀ c ∈ allColumns bs,
      c.cards.any (fun card => card.id == overId) = true → c = colM)
    (hidx : findIndex (fun card => card.id == overId) colM.cards = some k) :
    findTargetGo src overId ("", none) bs
      = (colM.id, some (if src == colM.id then k else k + 1)) := by
  induction bs with
  | nil => simp [allColumns] at hmem
  | cons b bs ih =>
    rw [findTargetGo]
    simp only [bne_self_eq_false, Bool.false_eq_true, if_false]
    rcases hf : b.columns.find?
        (fun col => col.cards.any (fun card => card.id == overId)) with _ | c0
    · rw [findColWithCard_of_find?.2 hf]
      have hanyM : colM.cards.any (fun card => card.id == overId) = true := by
        rw [← findIndex_isSome, hidx]; rfl
      have hnotb : colM ∉ b.columns := by
        intro hmb
        exact List.find?_eq_none.mp hf colM hmb hanyM
      have hmem2 : colM ∈ allColumns bs := by
        rw [allColumns_cons] at hmem
        rcases List.mem_append.mp hmem with h1 | h2
        · exact absurd h1 hnotb
        · exact h2
      exact ih hmem2 (fun c hc h =>
        honly c (by rw [allColumns_cons]; exact List.mem_append_right _ hc) h)
    · obtain ⟨k0, hfc, hidx0⟩ := findColWithCard_of_find?.1 c0 hf
      have hceq : c0 = colM := honly c0
        (by rw [allColumns_cons];
            exact List.mem_append_left _ (List.mem_of_find?_eq_some hf))
        (by have := List.find?_some hf; simpa using this)
      rw [hceq] at hfc hidx0
      have hk : k0 = k := by rw [hidx0] at hidx; simpa using hidx
      rw [hk] at hfc
      simp only [hfc]
      exact findTargetGo_idem src overId bs colM k (fun c hc h =>
        honly c (by rw [allColumns_cons]; exact List.mem_append_right _ hc) h) hidx

/-- C8: for a drag that ends over a resolvable target, the drag-end handlers
resolve `(targetColumnId, targetIndex)` as: drop on the card at position `k`
of a different column → that card's column with index `k + 1`; drop on the
card at position `k` of the dragged card's own column → the current column
with index exactly `k`; drop on a column's background → that column with the
index omitted.  Holds for the single-board resolution
(`resolveTargetSingle`, used by `handleDragEnd`) and the multi-board one
(`resolveTargetMulti`, used by `handleDragEndMulti`), given the data model's
id-uniqueness invariants. -/
theorem C8_drop_target_resolution
    (columns L₁ L₂ : List KanbanColumn) (activeColumnId overId : String)
    (col : KanbanColumn) (X : KCard) (m₁ m₂ : List KCard)
    (hdec : columns = L₁ ++ col :: L₂)
    (hcards : col.cards = m₁ ++ X :: m₂)
    (hXid : X.id = overId)
    (hnd : (columns.map (·.id)).Nodup)
    (hglob : ((columns.flatMap (·.cards)).map (·.id)).Nodup)
    (boards : List KBoard) (sourceColumnId : String)
    (colM : KanbanColumn) (XM : KCard) (n₁ n₂ : List KCard)
    (hmemM : colM ∈ allColumns boards)
    (hcardsM : colM.cards = n₁ ++ XM :: n₂)
    (hXMid : XM.id = overId)
    (hglobM : (((allColumns boards).flatMap (·.cards)).map (·.id)).Nodup) :
    (col.id ≠ activeColumnId →
      resolveTargetSingle columns activeColumnId (OverTarget.card overId)
        = (col.id, some ((m₁.length : Int) + 1))) ∧
    (col.id = activeColumnId →
      resolveTargetSingle columns activeColumnId (OverTarget.card overId)
        = (col.id, some (m₁.length : Int))) ∧
    (∀ c : KanbanColumn,
      resolveTargetSingle columns activeColumnId (OverTarget.column c)
        = (c.id, none)) ∧
    (sourceColumnId ≠ colM.id →
      resolveTargetMulti boards sourceColumnId (OverTarget.card overId)
        = (colM.id, some (n₁.length + 1))) ∧
    (sourceColumnId = colM.id →
      resolveTargetMulti boards sourceColumnId (OverTarget.card overId)
        = (colM.id, some n₁.length)) ∧
    (∀ c : KanbanColumn,
      resolveTargetMulti boards sourceColumnId (OverTarget.column c)
        = (c.id, none)) := by
  obtain ⟨hm₁, hm₂, honly⟩ := unique_card_facts hdec hcards hXid hglob
  have hmemcol : col ∈ columns := by rw [hdec]; simp
  have hfindX : col.cards.find? (fun c => c.id == overId) = some X := by
    rw [hcards]
    exact find?_append_first m₂ (fun y hy => by simpa using hm₁ y hy)
      (by simpa using hXid)
  have hfcc : findCardAndColumn columns overId = some (X, col.id) :=
    findCardAndColumn_of_unique hmemcol hfindX honly
  have hfindcol : columns.find? (fun c => c.id == col.id) = some col :=
    find?_eq_of_nodup_keys hnd hmemcol rfl
  have hfi : findIndex (fun card => card.id == overId) col.cards = some m₁.length := by
    rw [hcards]
    exact findIndex_append_first m₂ (fun y hy => by simpa using hm₁ y hy)
      (by simpa using hXid)
  obtain ⟨La, Lb, hdecM⟩ := List.mem_iff_append.mp hmemM
  obtain ⟨hn₁, hn₂, honlyM⟩ := unique_card_facts hdecM hcardsM hXMid hglobM
  have hfiM : findIndex (fun card => card.id == overId) colM.cards
      = some n₁.length := by
    rw [hcardsM]
    exact findIndex_append_first n₂ (fun y hy => by simpa using hn₁ y hy)
      (by simpa using hXMid)
  have htg := findTargetGo_of_unique sourceColumnId overId boards colM n₁.length
    hmemM honlyM hfiM
  refine ⟨?_, ?_, fun c => rfl, ?_, ?_, fun c => rfl⟩
  · intro hne
    have hne2 : (col.id == activeColumnId) = false := by simpa using hne
    simp [resolveTargetSingle, hfcc, hfindcol, hfi, hne2]
  · intro heq
    have heq2 : (col.id == activeColumnId) = true := by simpa using heq
    simp [resolveTargetSingle, hfcc, hfindcol, hfi, heq2]
  · intro hne
    have hne2 : (sourceColumnId == colM.id) = false := by simpa using hne
    rw [resolveTargetMulti, htg, hne2]
    simp
  · intro heq
    have heq2 : (sourceColumnId == colM.id) = true := by simpa using heq
    rw [resolveTargetMulti, htg, heq2]
    simp

/-- Witness for C8: dropping on cardB (position 0 of column "done") while
dragging from column "todo" resolves to ("done", 1) — insert-after — in both
the single- and multi-board resolution. -/
theorem C8_witness :
    resolveTargetSingle
      [{ id := "todo", title := 0,
         cards := [{ id := "cardA", content := CardContent.widget none, item := 0,
                     isUsingCache := false, key := "cardA-todo" }] },
       { id := "done", title := 1,
         cards := [{ id := "cardB", content := CardContent.widget none, item := 1,
                     isUsingCache := false, key := "cardB-done" }] }]
      "todo" (OverTarget.card "cardB") = ("done", some 1) ∧
    resolveTargetMulti
      [{ id := "b1", title := 0,
         columns := [{ id := "todo", title := 0,
                       cards := [{ id := "cardA", content := CardContent.widget none,
                                   item := 0, isUsingCache := false,
                                   key := "cardA-todo" }] },
                     { id := "done", title := 1,
                       cards := [{ id := "cardB", content := CardContent.widget none,
                                   item := 1, isUsingCache := false,
                                   key := "cardB-done" }] }] }]
      "todo" (OverTarget.card "cardB") = ("done", some 1) := by
  have h := C8_drop_target_resolution
    [{ id := "todo", title := 0,
       cards := [{ id := "cardA", content := CardContent.widget none, item := 0,
                   isUsingCache := false, key := "cardA-todo" }] },
     { id := "done", title := 1,
       cards := [{ id := "cardB", content := CardContent.widget none, item := 1,
                   isUsingCache := false, key := "cardB-done" }] }]
    [{ id := "todo", title := 0,
       cards := [{ id := "cardA", content := CardContent.widget none, item := 0,
                   isUsingCache := false, key := "cardA-todo" }] }]
    []
    "todo" "cardB"
    { id := "done", title := 1,
      cards := [{ id := "cardB", content := CardContent.widget none, item := 1,
                  isUsingCache := false, key := "cardB-done" }] }
    { id := "cardB", content := CardContent.widget none, item := 1,
      isUsingCache := false, key := "cardB-done" }
    [] []
    (by decide) (by decide) (by decide) (by decide) (by decide)
    [{ id := "b1", title := 0,
       columns := [{ id := "todo", title := 0,
                     cards := [{ id := "cardA", content := CardContent.widget none,
                                 item := 0, isUsingCache := false,
                                 key := "cardA-todo" }] },
                   { id := "done", title := 1,
                     cards := [{ id := "cardB", content := CardContent.widget none,
                                 item := 1, isUsingCache := false,
                                 key := "cardB-done" }] }] }]
    "todo"
    { id := "done", title := 1,
      cards := [{ id := "cardB", content := CardContent.widget none, item := 1,
                  isUsingCache := false, key := "cardB-done" }] }
    { id := "cardB", content := CardContent.widget none, item := 1,
      isUsingCache := false, key := "cardB-done" }
    [] []
    (by decide) (by decide) (by decide) (by decide)
  exact ⟨h.1 (by decide), h.2.2.2.1 (by decide)⟩

theorem stableSortByKey_perm (key : α → Rat) (l : List α) :
    (stableSortByKey key l).Perm l :=
  List.mergeSort_perm l _

theorem stableSortByKey_sorted (key : α → Rat) (l : List α) :
    (stableSortByKey key l).Pairwise (fun a b => key a ≤ key b) := by
  have h := @List.sorted_mergeSort α (fun a b : α => decide (key a ≤ key b))
    (fun a b c hab hbc => by
      simp only [decide_eq_true_eq] at *
      exact le_trans hab hbc)
    (fun a b => by simpa using le_total (key a) (key b)) l
  exact h.imp (fun hab => by simpa using hab)

theorem stableSortByKey_stable (key : α → Rat) (l : List α) (k : Rat) :
    (stableSortByKey key l).filter (fun a => key a == k)
      = l.filter (fun a => key a == k) := by
  have htrans : ∀ a b c : α, decide (key a ≤ key b) = true →
      decide (key b ≤ key c) = true → decide (key a ≤ key c) = true := by
    intro a b c hab hbc
    simp only [decide_eq_true_eq] at *
    exact le_trans hab hbc
  have htotal : ∀ a b : α,
      (decide (key a ≤ key b) || decide (key b ≤ key a)) = true := by
    intro a b
    simpa using le_total (key a) (key b)
  have hself : (l.filter (fun a => key a == k)).filter (fun a => key a == k)
      = l.filter (fun a => key a == k) := by
    rw [List.filter_eq_self]
    intro a ha
    exact (List.mem_filter.mp ha).2
  have hsorted : (l.filter (fun a => key a == k)).Pairwise
      (fun a b => decide (key a ≤ key b) = true) := by
    apply List.pairwise_of_forall_mem_list
    intro a ha b hb
    have hka0 : (key a == k) = true := (List.mem_filter.mp ha).2
    have hkb0 : (key b == k) = true := (List.mem_filter.mp hb).2
    have hka : key a = k := by simpa using hka0
    have hkb : key b = k := by simpa using hkb0
    simp [hka, hkb]
  have hsub : (l.filter (fun a => key a == k)).Sublist (stableSortByKey key l) :=
    List.sublist_mergeSort htrans htotal hsorted (List.filter_sublist l)
  have hsub2 : (l.filter (fun a => key a == k)).Sublist
      ((stableSortByKey key l).filter (fun a => key a == k)) := by
    have h2 := List.Sublist.filter (fun a => key a == k) hsub
    rwa [hself] at h2
  have hlen : ((stableSortByKey key l).filter (fun a => key a == k)).length
      = (l.filter (fun a => key a == k)).length :=
    ((stableSortByKey_perm key l).filter _).length_eq
  exact (hsub2.eq_of_length hlen.symm).symm

/-- C7: the entity model builder sorts boards, the columns within each board,
and the cards within each column ascending by numeric sort key (a missing
sort key defaults to 0 through `Option.getD 0`, matching the code's `|| 0`),
and the sort is stable: the records of any fixed key keep their relative
input order (their filtered subsequence is exactly the input's filtered
subsequence).  For cards the sort happens on the records before the map to
card objects, which preserves order. -/
theorem C7_entity_builder_sort
    (columnRecs : List ColumnRecord) (cardRecs : List CardRecord)
    (boardRecs : List BoardRecord)
    (m : List (String × String)) (s : List String) :
    (getColumns columnRecs cardRecs m s).Pairwise
      (fun a b => a.sortValue ≤ b.sortValue) ∧
    (∀ k : Rat,
      (getColumns columnRecs cardRecs m s).filter (fun c => c.sortValue == k)
        = (columnRecs.map (mkColumn cardRecs m s)).filter
            (fun c => c.sortValue == k)) ∧
    (∀ rec : ColumnRecord, (mkColumn cardRecs m s rec).sortValue
        = rec.sort.getD 0) ∧
    (∀ cid : String,
      (stableSortByKey (fun c => c.sort.getD 0)
          (cardRecs.filter (fun c => c.parent.getD "" == cid))).Pairwise
        (fun a b => a.sort.getD 0 ≤ b.sort.getD 0)) ∧
    (∀ cid : String, ∀ k : Rat,
      (stableSortByKey (fun c => c.sort.getD 0)
          (cardRecs.filter (fun c => c.parent.getD "" == cid))).filter
            (fun c => c.sort.getD 0 == k)
        = (cardRecs.filter (fun c => c.parent.getD "" == cid)).filter
            (fun c => c.sort.getD 0 == k)) ∧
    (∀ cid : String,
      (cardsForColumn cardRecs cid m s).map (fun c => c.id)
        = (stableSortByKey (fun c => c.sort.getD 0)
            (cardRecs.filter (fun c => c.parent.getD "" == cid))).map
          (fun r => r.id.getD "")) ∧
    (getBoards boardRecs columnRecs cardRecs m s).Pairwise
      (fun a b => a.sortValue ≤ b.sortValue) ∧
    (∀ k : Rat,
      (getBoards boardRecs columnRecs cardRecs m s).filter
          (fun b => b.sortValue == k)
        = (boardRecs.map (mkBoard columnRecs cardRecs m s)).filter
            (fun b => b.sortValue == k)) ∧
    (∀ bid : String,
      (stableSortByKey (fun c => c.sort.getD 0)
          (columnRecs.filter (fun c => c.parent.getD "" == bid))).Pairwise
        (fun a b => a.sort.getD 0 ≤ b.sort.getD 0)) ∧
    (∀ bid : String, ∀ k : Rat,
      (stableSortByKey (fun c => c.sort.getD 0)
          (columnRecs.filter (fun c => c.parent.getD "" == bid))).filter
            (fun c => c.sort.getD 0 == k)
        = (columnRecs.filter (fun c => c.parent.getD "" == bid)).filter
            (fun c => c.sort.getD 0 == k)) := by
  refine ⟨?_, ?_, fun rec => rfl, ?_, ?_, ?_, ?_, ?_, ?_, ?_⟩
  · exact stableSortByKey_sorted _ _
  · intro k
    exact stableSortByKey_stable _ _ k
  · intro cid
    exact stableSortByKey_sorted _ _
  · intro cid k
    exact stableSortByKey_stable _ _ k
  · intro cid
    simp [cardsForColumn, createCard, List.map_map]
  · exact stableSortByKey_sorted _ _
  · intro k
    exact stableSortByKey_stable _ _ k
  · intro bid
    exact stableSortByKey_sorted _ _
  · intro bid k
    exact stableSortByKey_stable _ _ k

theorem get?_some_split {l : List α} {i : Nat} {x : α} (h : l.get? i = some x) :
    ∃ l₁ l₂, l = l₁ ++ x :: l₂ ∧ l₁.length = i := by
  induction l generalizing i with
  | nil => simp at h
  | cons a as ih =>
    cases i with
    | zero =>
      obtain rfl : a = x := by simpa using h
      exact ⟨[], as, rfl, rfl⟩
    | succ i =>
      obtain ⟨l₁, l₂, rfl, hlen⟩ := ih (by simpa using h)
      exact ⟨a :: l₁, l₂, rfl, by simp [hlen]⟩

theorem get?_lt_length {l : List α} {i : Nat} {x : α} (h : l.get? i = some x) :
    i < l.length := by
  obtain ⟨l₁, l₂, rfl, hlen⟩ := get?_some_split h
  rw [← hlen]
  simp

theorem coe_flatMap_set {β : Type _} (f : α → List β) {l : List α} {i : Nat}
    {a : α} (b : α) (h : l.get? i = some a) :
    (↑((l.set i b).flatMap f) : Multiset β) + ↑(f a)
      = ↑(l.flatMap f) + ↑(f b) := by
  induction l generalizing i with
  | nil => simp at h
  | cons x xs ih =>
    cases i with
    | zero =>
      obtain rfl : x = a := by simpa using h
      simp only [List.set_cons_zero, List.flatMap_cons]
      rw [← Multiset.coe_add, ← Multiset.coe_add]
      abel
    | succ i =>
      have h2 : xs.get? i = some a := by simpa using h
      simp only [List.set_cons_succ, List.flatMap_cons]
      rw [← Multiset.coe_add, ← Multiset.coe_add]
      calc (↑(f x) + ↑((xs.set i b).flatMap f) : Multiset β) + ↑(f a)
          = ↑(f x) + ((↑((xs.set i b).flatMap f) : Multiset β) + ↑(f a)) := by abel
        _ = ↑(f x) + ((↑(xs.flatMap f) : Multiset β) + ↑(f b)) := by rw [ih h2]
        _ = (↑(f x) + ↑(xs.flatMap f) : Multiset β) + ↑(f b) := by abel

/-- A card with its display key erased: exactly what
`performOptimisticCardMove` preserves about the moved card (its id, content,
source record and cache flag — only the key changes). -/
def stripKey (c : KCard) : KCard := { c with key := "" }

/-- The key-stripped cards of a column list, in tree order. -/
def cardBag (cols : List KanbanColumn) : List KCard :=
  cols.flatMap (fun c => c.cards.map stripKey)

/-- The key-stripped cards of a whole multi-board tree. -/
def cardBagMulti (boards : List KBoard) : List KCard :=
  boards.flatMap (fun b => cardBag b.columns)

theorem setColCards_eq {boards : List KBoard} {p : Nat × Nat} {brd : KBoard}
    {col : KanbanColumn} (cards : List KCard)
    (hb : boards.get? p.1 = some brd) (hc : brd.columns.get? p.2 = some col) :
    setColCards boards p cards
      = boards.set p.1
          { brd with columns := brd.columns.set p.2 { col with cards := cards } } := by
  simp only [setColCards, hb, hc]

theorem colAt_setColCards_self {boards : List KBoard} {p : Nat × Nat}
    {brd : KBoard} {col : KanbanColumn} (cards : List KCard)
    (hb : boards.get? p.1 = some brd) (hc : brd.columns.get? p.2 = some col) :
    colAt (setColCards boards p cards) p = some { col with cards := cards } := by
  rw [setColCards_eq cards hb hc, colAt]
  have hlt : p.1 < boards.length := get?_lt_length hb
  have hlt2 : p.2 < brd.columns.length := get?_lt_length hc
  rw [List.get?_eq_getElem?, List.getElem?_set_self hlt]
  simp [List.get?_eq_getElem?, List.getElem?_set_self hlt2]

theorem colAt_setColCards_ne {boards : List KBoard} {p q : Nat × Nat}
    (h : p ≠ q) (cards : List KCard) :
    colAt (setColCards boards p cards) q = colAt boards q := by
  rcases hb : boards.get? p.1 with _ | brd
  · have hb2 : boards[p.1]? = none := by rw [← List.get?_eq_getElem?]; exact hb
    simp [setColCards, hb2]
  rcases hc : brd.columns.get? p.2 with _ | col
  · have hb2 : boards[p.1]? = some brd := by rw [← List.get?_eq_getElem?]; exact hb
    have hc2 : brd.columns[p.2]? = none := by rw [← List.get?_eq_getElem?]; exact hc
    simp [setColCards, hb2, hc2]
  rw [setColCards_eq cards hb hc]
  by_cases h1 : p.1 = q.1
  · have h2 : p.2 ≠ q.2 := by
      intro h2
      exact h (Prod.ext h1 h2)
    have hlt : p.1 < boards.length := get?_lt_length hb
    rw [colAt, colAt, ← h1]
    rw [List.get?_eq_getElem?, List.getElem?_set_self hlt, hb]
    simp [Option.bind, List.getElem?_set_ne h2]
  · rw [colAt, colAt, get?_set_ne h1]

theorem coe_cardBagMulti_setColCards {boards : List KBoard} {p : Nat × Nat}
    {brd : KBoard} {col : KanbanColumn} (cards : List KCard)
    (hb : boards.get? p.1 = some brd) (hc : brd.columns.get? p.2 = some col) :
    (↑(cardBagMulti (setColCards boards p cards)) : Multiset KCard)
        + ↑(col.cards.map stripKey)
      = ↑(cardBagMulti boards) + ↑(cards.map stripKey) := by
  rw [setColCards_eq cards hb hc]
  have hB := coe_flatMap_set (fun b => cardBag b.columns)
    { brd with columns := brd.columns.set p.2 { col with cards := cards } } hb
  have hC := coe_flatMap_set (fun c => c.cards.map stripKey)
    { col with cards := cards } hc
  have key : ((↑(cardBagMulti (boards.set p.1
        { brd with columns := brd.columns.set p.2 { col with cards := cards } }))
        : Multiset KCard) + ↑(col.cards.map stripKey)) + ↑(cardBag brd.columns)
      = ((↑(cardBagMulti boards) : Multiset KCard) + ↑(cards.map stripKey))
        + ↑(cardBag brd.columns) := by
    calc ((↑(cardBagMulti (boards.set p.1
            { brd with columns := brd.columns.set p.2 { col with cards := cards } }))
            : Multiset KCard) + ↑(col.cards.map stripKey)) + ↑(cardBag brd.columns)
        = ((↑(cardBagMulti (boards.set p.1
            { brd with columns := brd.columns.set p.2 { col with cards := cards } }))
            : Multiset KCard) + ↑(cardBag brd.columns)) + ↑(col.cards.map stripKey) := by
          abel
      _ = ((↑(cardBagMulti boards) : Multiset KCard)
            + ↑(cardBag (brd.columns.set p.2 { col with cards := cards })))
            + ↑(col.cards.map stripKey) := by
          simp only [cardBagMulti]
          simp only [cardBagMulti] at hB
          rw [hB]
      _ = (↑(cardBagMulti boards) : Multiset KCard)
            + ((↑(cardBag (brd.columns.set p.2 { col with cards := cards }))
              : Multiset KCard) + ↑(col.cards.map stripKey)) := by abel
      _ = (↑(cardBagMulti boards) : Multiset KCard)
            + ((↑(cardBag brd.columns) : Multiset KCard) + ↑(cards.map stripKey)) := by
          simp only [cardBag]
          simp only [cardBag] at hC
          rw [hC]
      _ = ((↑(cardBagMulti boards) : Multiset KCard) + ↑(cards.map stripKey))
            + ↑(cardBag brd.columns) := by abel
  exact add_right_cancel key

theorem coe_insertAt_stripKey (c : KCard) (L : List KCard) (n : Nat) :
    (↑((insertAt (min n L.length) c L).map stripKey) : Multiset KCard)
      = stripKey c ::ₘ ↑(L.map stripKey) := by
  have hle : min n L.length ≤ L.length := min_le_right _ _
  have hperm := (List.perm_insertIdx c L hle).map stripKey
  calc (↑((insertAt (min n L.length) c L).map stripKey) : Multiset KCard)
      = ↑((c :: L).map stripKey) := Multiset.coe_eq_coe.mpr hperm
    _ = stripKey c ::ₘ ↑(L.map stripKey) := by rw [List.map_cons, Multiset.cons_coe]

theorem coe_middle_stripKey (x : KCard) (m₁ m₂ : List KCard) :
    (↑((m₁ ++ x :: m₂).map stripKey) : Multiset KCard)
      = stripKey x ::ₘ ↑((m₁ ++ m₂).map stripKey) := by
  have hperm : (m₁ ++ x :: m₂).Perm (x :: (m₁ ++ m₂)) := List.perm_middle
  calc (↑((m₁ ++ x :: m₂).map stripKey) : Multiset KCard)
      = ↑((x :: (m₁ ++ m₂)).map stripKey) := Multiset.coe_eq_coe.mpr (hperm.map stripKey)
    _ = stripKey x ::ₘ ↑((m₁ ++ m₂).map stripKey) := by
        rw [List.map_cons, Multiset.cons_coe]


theorem coe_cardBag_set {columns : List KanbanColumn} {si : Nat}
    {sourceColumn : KanbanColumn} (cards : List KCard)
    (hg : columns.get? si = some sourceColumn) :
    (↑(cardBag (columns.set si { sourceColumn with cards := cards })) : Multiset KCard)
        + ↑(sourceColumn.cards.map stripKey)
      = ↑(cardBag columns) + ↑(cards.map stripKey) := by
  have hE := coe_flatMap_set (fun c => c.cards.map stripKey)
    { sourceColumn with cards := cards } hg
  simpa [cardBag] using hE

theorem cardBag_move_single (columns : List KanbanColumn)
    (cardId src tgt : String) (i : Option Nat) :
    (↑(cardBag (performOptimisticCardMove columns cardId src tgt i)) : Multiset KCard)
      = ↑(cardBag columns) := by
  rcases hs : findIndex (fun col => col.id == src) columns with _ | si
  · simp [performOptimisticCardMove, hs]
  rcases ht : findIndex (fun col => col.id == tgt) columns with _ | ti
  · simp [performOptimisticCardMove, hs, ht]
  rcases hg : columns.get? si with _ | sourceColumn
  · have hg2 : columns[si]? = none := by rw [← List.get?_eq_getElem?]; exact hg
    simp [performOptimisticCardMove, hs, ht, hg2]
  have hg2 : columns[si]? = some sourceColumn := by
    rw [← List.get?_eq_getElem?]; exact hg
  rcases hci : findIndex (fun card => card.id == cardId) sourceColumn.cards
      with _ | cardIndex
  · simp [performOptimisticCardMove, hs, ht, hg2, hci]
  rcases hoc : sourceColumn.cards.get? cardIndex with _ | originalCard
  · have hoc2 : sourceColumn.cards[cardIndex]? = none := by
      rw [← List.get?_eq_getElem?]; exact hoc
    simp [performOptimisticCardMove, hs, ht, hg2, hci, hoc2]
  have hoc2 : sourceColumn.cards[cardIndex]? = some originalCard := by
    rw [← List.get?_eq_getElem?]; exact hoc
  obtain ⟨m₁, m₂, hmdec, hmlen⟩ := get?_some_split hoc
  have hrem : removeAt sourceColumn.cards cardIndex = m₁ ++ m₂ := by
    rw [hmdec, ← hmlen]
    exact removeAt_append_len m₁ originalCard m₂
  have hsrcS : (↑(sourceColumn.cards.map stripKey) : Multiset KCard)
      = stripKey originalCard ::ₘ ↑((m₁ ++ m₂).map stripKey) := by
    rw [hmdec]
    exact coe_middle_stripKey originalCard m₁ m₂
  have hstrip : stripKey { originalCard with key := originalCard.id ++ "-" ++ tgt }
      = stripKey originalCard := rfl
  by_cases hst : si = ti
  · simp only [performOptimisticCardMove, hs, ht, hg, hci, hoc, if_pos hst]
    apply add_right_cancel (b := (↑(sourceColumn.cards.map stripKey) : Multiset KCard))
    rw [coe_cardBag_set _ hg]
    rw [coe_insertAt_stripKey, hstrip, hrem, hsrcS]
  · rcases hgt : columns.get? ti with _ | targetColumn
    · have hgt2 : columns[ti]? = none := by rw [← List.get?_eq_getElem?]; exact hgt
      simp [performOptimisticCardMove, hs, ht, hg2, hci, hoc2, if_neg hst, hgt2]
    have hgt2 : columns[ti]? = some targetColumn := by
      rw [← List.get?_eq_getElem?]; exact hgt
    simp only [performOptimisticCardMove, hs, ht, hg, hci, hoc, if_neg hst, hgt]
    have hgt3 : (columns.set si
        { sourceColumn with cards := removeAt sourceColumn.cards cardIndex }).get? ti
        = some targetColumn := by
      rw [get?_set_ne hst]
      exact hgt
    apply add_right_cancel
      (b := (↑(targetColumn.cards.map stripKey) : Multiset KCard)
        + ↑(sourceColumn.cards.map stripKey))
    rw [← add_assoc, coe_cardBag_set _ hgt3, add_right_comm, coe_cardBag_set _ hg]
    rw [coe_insertAt_stripKey, hstrip, hrem, hsrcS]
    rw [← Multiset.singleton_add, ← Multiset.singleton_add]
    abel

theorem cardBag_move_multi (boards : List KBoard)
    (cardId src tgt : String) (i : Option Nat) :
    (↑(cardBagMulti (performOptimisticCardMoveMulti boards cardId src tgt i))
        : Multiset KCard)
      = ↑(cardBagMulti boards) := by
  rcases hs : lastColPos boards src with _ | sp
  · simp [performOptimisticCardMoveMulti, hs]
  rcases ht : lastColPos boards tgt with _ | tp
  · simp [performOptimisticCardMoveMulti, hs, ht]
  rcases hg : colAt boards sp with _ | sourceColumn
  · simp [performOptimisticCardMoveMulti, hs, ht, hg]
  rcases hci : findIndex (fun card => card.id == cardId) sourceColumn.cards
      with _ | cardIndex
  · simp [performOptimisticCardMoveMulti, hs, ht, hg, hci]
  rcases hoc : sourceColumn.cards.get? cardIndex with _ | originalCard
  · have hoc2 : sourceColumn.cards[cardIndex]? = none := by
      rw [← List.get?_eq_getElem?]; exact hoc
    simp [performOptimisticCardMoveMulti, hs, ht, hg, hci, hoc, hoc2]
  have hgb := hg
  simp only [colAt] at hgb
  obtain ⟨brd, hb, hc⟩ := Option.bind_eq_some.mp hgb
  obtain ⟨m₁, m₂, hmdec, hmlen⟩ := get?_some_split hoc
  have hrem : removeAt sourceColumn.cards cardIndex = m₁ ++ m₂ := by
    rw [hmdec, ← hmlen]
    exact removeAt_append_len m₁ originalCard m₂
  have hsrcS : (↑(sourceColumn.cards.map stripKey) : Multiset KCard)
      = stripKey originalCard ::ₘ ↑((m₁ ++ m₂).map stripKey) := by
    rw [hmdec]
    exact coe_middle_stripKey originalCard m₁ m₂
  have hstrip : stripKey { originalCard with key := originalCard.id ++ "-" ++ tgt }
      = stripKey originalCard := rfl
  by_cases hst : sp = tp
  · simp only [performOptimisticCardMoveMulti, hs, ht, hg, hci, hoc, if_pos hst]
    apply add_right_cancel (b := (↑(sourceColumn.cards.map stripKey) : Multiset KCard))
    rw [coe_cardBagMulti_setColCards _ hb hc]
    rw [coe_insertAt_stripKey, hstrip, hrem, hsrcS]
  · rcases hgt : colAt boards tp with _ | targetColumn
    · have hoc2 : sourceColumn.cards[cardIndex]? = some originalCard := by
        rw [← List.get?_eq_getElem?]; exact hoc
      simp [performOptimisticCardMoveMulti, hs, ht, hg, hci, hoc, hoc2, if_neg hst, hgt]
    simp only [performOptimisticCardMoveMulti, hs, ht, hg, hci, hoc, if_neg hst, hgt]
    have hcat2 : colAt (setColCards boards sp (removeAt sourceColumn.cards cardIndex)) tp
        = some targetColumn := by
      rw [colAt_setColCards_ne hst]
      exact hgt
    simp only [colAt] at hcat2
    obtain ⟨brd2, hb2, hc2⟩ := Option.bind_eq_some.mp hcat2
    apply add_right_cancel
      (b := (↑(targetColumn.cards.map stripKey) : Multiset KCard)
        + ↑(sourceColumn.cards.map stripKey))
    rw [← add_assoc, coe_cardBagMulti_setColCards _ hb2 hc2, add_right_comm,
      coe_cardBagMulti_setColCards _ hb hc]
    rw [coe_insertAt_stripKey, hstrip, hrem, hsrcS]
    rw [← Multiset.singleton_add, ← Multiset.singleton_add]
    abel

theorem cardBag_map_id (cols : List KanbanColumn) :
    (cardBag cols).map (fun c => c.id)
      = (cols.flatMap (fun c => c.cards)).map (fun c => c.id) := by
  have hcomp : (fun c : KCard => c.id) ∘ stripKey = fun c : KCard => c.id := rfl
  simp [cardBag, List.map_flatMap, List.map_map, hcomp]

theorem cardBagMulti_map_id (boards : List KBoard) :
    (cardBagMulti boards).map (fun c => c.id)
      = ((allColumns boards).flatMap (fun c => c.cards)).map (fun c => c.id) := by
  have hcomp : (fun c : KCard => c.id) ∘ stripKey = fun c : KCard => c.id := rfl
  simp [cardBagMulti, cardBag, allColumns, List.map_flatMap, List.flatMap_assoc,
    List.map_map, hcomp]

/-- C10: for every input tree and every move request, the multiset of cards
over all columns of the tree returned by `performOptimisticCardMove` (single-
and multi-board), with display keys erased, equals that of the input tree —
a move relocates exactly one card, never duplicating, creating or losing
one, and the moved card keeps its id, content, source record and cache flag
(only its display key changes); in particular the multiset of card ids is
preserved. -/
theorem C10_move_preserves_card_multiset
    (columns : List KanbanColumn) (boards : List KBoard)
    (cardId src tgt : String) (i : Option Nat) :
    (↑(cardBag (performOptimisticCardMove columns cardId src tgt i)) : Multiset KCard)
      = ↑(cardBag columns) ∧
    (↑(((performOptimisticCardMove columns cardId src tgt i).flatMap
          (fun c => c.cards)).map (fun c => c.id)) : Multiset String)
      = ↑((columns.flatMap (fun c => c.cards)).map (fun c => c.id)) ∧
    (↑(cardBagMulti (performOptimisticCardMoveMulti boards cardId src tgt i))
        : Multiset KCard)
      = ↑(cardBagMulti boards) ∧
    (↑(((allColumns (performOptimisticCardMoveMulti boards cardId src tgt i)).flatMap
          (fun c => c.cards)).map (fun c => c.id)) : Multiset String)
      = ↑(((allColumns boards).flatMap (fun c => c.cards)).map (fun c => c.id)) := by
  have h1 := cardBag_move_single columns cardId src tgt i
  have h2 := cardBag_move_multi boards cardId src tgt i
  refine ⟨h1, ?_, h2, ?_⟩
  · rw [Multiset.coe_eq_coe, ← cardBag_map_id, ← cardBag_map_id]
    exact (Multiset.coe_eq_coe.mp h1).map (fun c => c.id)
  · rw [Multiset.coe_eq_coe, ← cardBagMulti_map_id, ← cardBagMulti_map_id]
    exact (Multiset.coe_eq_coe.mp h2).map (fun c => c.id)

theorem set_get?_self {l : List α} {i : Nat} {x : α} (h : l.get? i = some x) :
    l.set i x = l := by
  induction l generalizing i with
  | nil => rfl
  | cons a as ih =>
    cases i with
    | zero =>
      obtain rfl : a = x := by simpa using h
      rfl
    | succ i =>
      have := ih (by simpa using h)
      simp [this]

theorem get?_set_self {l : List α} {i : Nat} (c : α) (h : i < l.length) :
    (l.set i c).get? i = some c := by
  rw [List.get?_eq_getElem?]
  exact List.getElem?_set_self h

theorem lastIdxCol_last {cc₁ cc₂ : List KanbanColumn} {A : KanbanColumn} {x : String}
    (hid : A.id = x) (h₂ : ∀ c ∈ cc₂, c.id ≠ x) :
    lastIdxCol (cc₁ ++ A :: cc₂) x = some cc₁.length := by
  induction cc₁ with
  | nil =>
    rw [List.nil_append, lastIdxCol, lastIdxCol_eq_none.mpr h₂]
    simp [hid]
  | cons c cs ih =>
    rw [List.cons_append, lastIdxCol, ih]
    simp

theorem lastColPos_last {B₁ B₂ : List KBoard} {brd : KBoard}
    {cc₁ cc₂ : List KanbanColumn} {A : KanbanColumn} {x : String}
    (hcols : brd.columns = cc₁ ++ A :: cc₂)
    (hid : A.id = x)
    (h₂ : ∀ c ∈ cc₂, c.id ≠ x)
    (hB₂ : ∀ c ∈ allColumns B₂, c.id ≠ x) :
    lastColPos (B₁ ++ brd :: B₂) x = some (B₁.length, cc₁.length) := by
  induction B₁ with
  | nil =>
    rw [List.nil_append, lastColPos, lastColPos_eq_none.mpr hB₂, hcols,
      lastIdxCol_last hid h₂]
    rfl
  | cons b bs ih =>
    rw [List.cons_append, lastColPos, ih]
    simp

theorem colAt_decomp {B₁ B₂ : List KBoard} {brd : KBoard}
    {cc₁ cc₂ : List KanbanColumn} {A : KanbanColumn}
    (hcols : brd.columns = cc₁ ++ A :: cc₂) :
    colAt (B₁ ++ brd :: B₂) (B₁.length, cc₁.length) = some A := by
  rw [colAt]
  have h1 : (B₁ ++ brd :: B₂).get? (B₁.length, cc₁.length).1 = some brd :=
    get?_append_len B₁ brd B₂
  rw [h1]
  show brd.columns.get? cc₁.length = some A
  rw [hcols]
  exact get?_append_len cc₁ A cc₂

theorem C2_single_aux
    (L₁ L₂ : List KanbanColumn) (a b cid : String) (i : Option Nat)
    (A B : KanbanColumn) (C : KCard) (m₁ m₂ : List KCard)
    (hnd : ((L₁ ++ A :: L₂).map (fun c => c.id)).Nodup)
    (hAid : A.id = a) (hB : B ∈ L₁ ++ A :: L₂) (hBid : B.id = b) (hab : a ≠ b)
    (hcards : A.cards = m₁ ++ C :: m₂) (hCid : C.id = cid)
    (hAnd : (A.cards.map (fun c => c.id)).Nodup) :
    (performOptimisticCardMove (L₁ ++ A :: L₂) cid a b i).map (fun c => c.id)
      = (L₁ ++ A :: L₂).map (fun c => c.id) ∧
    (performOptimisticCardMove (L₁ ++ A :: L₂) cid a b i).find?
        (fun c => c.id == a) = some { A with cards := A.cards.erase C } ∧
    (performOptimisticCardMove (L₁ ++ A :: L₂) cid a b i).find?
        (fun c => c.id == b)
      = some { B with
          cards := insertAt (min (i.getD B.cards.length) B.cards.length)
              { C with key := cid ++ "-" ++ b } B.cards } ∧
    (insertAt (min (i.getD B.cards.length) B.cards.length)
        { C with key := cid ++ "-" ++ b } B.cards).length = B.cards.length + 1 ∧
    (insertAt (min (i.getD B.cards.length) B.cards.length)
          { C with key := cid ++ "-" ++ b } B.cards).get?
        (min (i.getD B.cards.length) B.cards.length)
      = some { C with key := cid ++ "-" ++ b } ∧
    (∀ j col, (L₁ ++ A :: L₂).get? j = some col → col.id ≠ a → col.id ≠ b →
      (performOptimisticCardMove (L₁ ++ A :: L₂) cid a b i).get? j = some col) := by
  have hmapdec : (L₁ ++ A :: L₂).map (fun c => c.id)
      = L₁.map (fun c => c.id) ++ a :: L₂.map (fun c => c.id) := by
    simp [hAid]
  have hnd2 := hnd
  rw [hmapdec] at hnd2
  obtain ⟨hL₁a, hL₂a⟩ := nodup_middle_not_mem hnd2
  have hs : findIndex (fun col => col.id == a) (L₁ ++ A :: L₂) = some L₁.length :=
    findIndex_append_first L₂
      (fun y hy => by
        simp only [beq_eq_false_iff_ne, ne_eq]
        intro heq
        exact hL₁a (heq ▸ List.mem_map_of_mem _ hy))
      (by simpa using hAid)
  obtain ⟨l₁, l₂, hdecB⟩ := List.mem_iff_append.mp hB
  have hndB := hnd
  rw [hdecB] at hndB
  have hmapdecB : (l₁ ++ B :: l₂).map (fun c => c.id)
      = l₁.map (fun c => c.id) ++ b :: l₂.map (fun c => c.id) := by
    simp [hBid]
  rw [hmapdecB] at hndB
  obtain ⟨hl₁b, hl₂b⟩ := nodup_middle_not_mem hndB
  have ht : findIndex (fun col => col.id == b) (L₁ ++ A :: L₂) = some l₁.length := by
    rw [hdecB]
    exact findIndex_append_first l₂
      (fun y hy => by
        simp only [beq_eq_false_iff_ne, ne_eq]
        intro heq
        exact hl₁b (heq ▸ List.mem_map_of_mem _ hy))
      (by simpa using hBid)
  have hg : (L₁ ++ A :: L₂).get? L₁.length = some A := get?_append_len L₁ A L₂
  have hgt : (L₁ ++ A :: L₂).get? l₁.length = some B := by
    rw [hdecB]
    exact get?_append_len l₁ B l₂
  have hne : ¬ (L₁.length = l₁.length) := by
    intro heq
    rw [heq, hgt] at hg
    have : A = B := by simpa using hg.symm
    exact hab (by rw [← hAid, this, hBid])
  have hAmapdec : A.cards.map (fun c => c.id)
      = m₁.map (fun c => c.id) ++ cid :: m₂.map (fun c => c.id) := by
    simp [hcards, hCid]
  have hAnd2 := hAnd
  rw [hAmapdec] at hAnd2
  obtain ⟨hm₁cid, hm₂cid⟩ := nodup_middle_not_mem hAnd2
  have hci : findIndex (fun card => card.id == cid) A.cards = some m₁.length := by
    rw [hcards]
    exact findIndex_append_first m₂
      (fun y hy => by
        simp only [beq_eq_false_iff_ne, ne_eq]
        intro heq
        exact hm₁cid (heq ▸ List.mem_map_of_mem _ hy))
      (by simpa using hCid)
  have hoc : A.cards.get? m₁.length = some C := by
    rw [hcards]
    exact get?_append_len m₁ C m₂
  have hremA : removeAt A.cards m₁.length = m₁ ++ m₂ := by
    rw [hcards]
    exact removeAt_append_len m₁ C m₂
  have hCnotm₁ : C ∉ m₁ := by
    intro hCm
    exact hm₁cid (hCid ▸ List.mem_map_of_mem _ hCm)
  have herase : A.cards.erase C = m₁ ++ m₂ := by
    rw [hcards, List.erase_append_right _ hCnotm₁, List.erase_cons_head]
  have hsilt : L₁.length < (L₁ ++ A :: L₂).length := get?_lt_length hg
  have htilt : l₁.length < (L₁ ++ A :: L₂).length := get?_lt_length hgt
  simp only [performOptimisticCardMove, hs, ht, hg, hci, hoc, if_neg hne, hgt]
  have hmap1 : ((((L₁ ++ A :: L₂).set L₁.length
        { A with cards := removeAt A.cards m₁.length }).set l₁.length
        { B with
          cards := insertAt (min (i.getD B.cards.length) B.cards.length)
              { C with key := C.id ++ "-" ++ b } B.cards }).map (fun c => c.id))
      = (L₁ ++ A :: L₂).map (fun c => c.id) := by
    rw [List.map_set, List.map_set]
    have hga : ((L₁ ++ A :: L₂).map (fun c => c.id)).get? L₁.length = some a := by
      rw [List.get?_map, hg]
      simp [hAid]
    have hgb2 : (((L₁ ++ A :: L₂).map (fun c => c.id)).set L₁.length
        ({ A with cards := removeAt A.cards m₁.length } : KanbanColumn).id).get? l₁.length
        = some b := by
      rw [get?_set_ne hne, List.get?_map, hgt]
      simp [hBid]
    have h1 : ({ A with cards := removeAt A.cards m₁.length } : KanbanColumn).id = a :=
      hAid
    have h2 : ({ B with
        cards := insertAt (min (i.getD B.cards.length) B.cards.length)
            { C with key := C.id ++ "-" ++ b } B.cards } : KanbanColumn).id = b := hBid
    rw [set_get?_self (h2 ▸ hgb2), set_get?_self (h1 ▸ hga)]
  have hresA : (((L₁ ++ A :: L₂).set L₁.length
        { A with cards := removeAt A.cards m₁.length }).set l₁.length
        { B with
          cards := insertAt (min (i.getD B.cards.length) B.cards.length)
              { C with key := C.id ++ "-" ++ b } B.cards }).get? L₁.length
      = some { A with cards := removeAt A.cards m₁.length } := by
    rw [get?_set_ne (fun hh => hne hh.symm), get?_set_self _ hsilt]
  have hresB : (((L₁ ++ A :: L₂).set L₁.length
        { A with cards := removeAt A.cards m₁.length }).set l₁.length
        { B with
          cards := insertAt (min (i.getD B.cards.length) B.cards.length)
              { C with key := C.id ++ "-" ++ b } B.cards }).get? l₁.length
      = some { B with
          cards := insertAt (min (i.getD B.cards.length) B.cards.length)
              { C with key := C.id ++ "-" ++ b } B.cards } := by
    rw [get?_set_self]
    rw [List.length_set]
    exact htilt
  have hndres : ((((L₁ ++ A :: L₂).set L₁.length
        { A with cards := removeAt A.cards m₁.length }).set l₁.length
        { B with
          cards := insertAt (min (i.getD B.cards.length) B.cards.length)
              { C with key := C.id ++ "-" ++ b } B.cards }).map (fun c => c.id)).Nodup := by
    rw [hmap1]
    exact hnd
  refine ⟨hmap1, ?_, ?_, length_insertAt (min_le_right _ _),
    get?_insertAt_self (min_le_right _ _), ?_⟩
  · have hfound := find?_eq_of_nodup_keys hndres (List.get?_mem hresA) hAid
    rw [hremA] at hfound
    rw [hremA, herase]
    exact hfound
  · have hfound := find?_eq_of_nodup_keys hndres (List.get?_mem hresB) hBid
    rw [hCid] at hfound
    rw [hCid]
    exact hfound
  · intro j col hcol hna hnb
    have hjne1 : L₁.length ≠ j := by
      intro heq
      rw [← heq, hg] at hcol
      have : A = col := by simpa using hcol
      exact hna (by rw [← this, hAid])
    have hjne2 : l₁.length ≠ j := by
      intro heq
      rw [← heq, hgt] at hcol
      have : B = col := by simpa using hcol
      exact hnb (by rw [← this, hBid])
    rw [get?_set_ne hjne2, get?_set_ne hjne1]
    exact hcol

theorem C2_multi_aux
    (B₁ B₂ D₁ D₂ : List KBoard) (brdA brdB : KBoard)
    (cc₁ cc₂ dd₁ dd₂ : List KanbanColumn)
    (a b cid : String) (i : Option Nat)
    (AM BM : KanbanColumn) (CM : KCard) (n₁ n₂ : List KCard)
    (hdec2 : B₁ ++ brdA :: B₂ = D₁ ++ brdB :: D₂)
    (hndM : ((allColumns (B₁ ++ brdA :: B₂)).map (fun c => c.id)).Nodup)
    (hAcols : brdA.columns = cc₁ ++ AM :: cc₂)
    (hAMid : AM.id = a)
    (hBcols : brdB.columns = dd₁ ++ BM :: dd₂)
    (hBMid : BM.id = b)
    (hab : a ≠ b)
    (hAMcards : AM.cards = n₁ ++ CM :: n₂) (hCMid : CM.id = cid)
    (hAMnd : (AM.cards.map (fun c => c.id)).Nodup) :
    colAt (performOptimisticCardMoveMulti (B₁ ++ brdA :: B₂) cid a b i)
        (B₁.length, cc₁.length) = some { AM with cards := AM.cards.erase CM } ∧
    colAt (performOptimisticCardMoveMulti (B₁ ++ brdA :: B₂) cid a b i)
        (D₁.length, dd₁.length)
      = some { BM with
          cards := insertAt (min (i.getD BM.cards.length) BM.cards.length)
              { CM with key := cid ++ "-" ++ b } BM.cards } ∧
    (insertAt (min (i.getD BM.cards.length) BM.cards.length)
        { CM with key := cid ++ "-" ++ b } BM.cards).length = BM.cards.length + 1 ∧
    (insertAt (min (i.getD BM.cards.length) BM.cards.length)
          { CM with key := cid ++ "-" ++ b } BM.cards).get?
        (min (i.getD BM.cards.length) BM.cards.length)
      = some { CM with key := cid ++ "-" ++ b } ∧
    (∀ q : Nat × Nat, q ≠ (B₁.length, cc₁.length) → q ≠ (D₁.length, dd₁.length) →
      colAt (performOptimisticCardMoveMulti (B₁ ++ brdA :: B₂) cid a b i) q
        = colAt (B₁ ++ brdA :: B₂) q) := by
  have hflatA : (allColumns (B₁ ++ brdA :: B₂)).map (fun c => c.id)
      = ((allColumns B₁).map (fun c => c.id) ++ cc₁.map (fun c => c.id))
        ++ a :: (cc₂.map (fun c => c.id) ++ (allColumns B₂).map (fun c => c.id)) := by
    simp [allColumns, List.flatMap_append, List.flatMap_cons, hAcols, hAMid]
  have hndA := hndM
  rw [hflatA] at hndA
  obtain ⟨hPa, hQa⟩ := nodup_middle_not_mem hndA
  simp only [List.mem_append] at hPa hQa
  have h₂a : ∀ c ∈ cc₂, c.id ≠ a := by
    intro c hc heq
    exact hQa (Or.inl (heq ▸ List.mem_map_of_mem _ hc))
  have hB₂a : ∀ c ∈ allColumns B₂, c.id ≠ a := by
    intro c hc heq
    exact hQa (Or.inr (heq ▸ List.mem_map_of_mem _ hc))
  have hndM2 := hndM
  rw [hdec2] at hndM2
  have hflatB : (allColumns (D₁ ++ brdB :: D₂)).map (fun c => c.id)
      = ((allColumns D₁).map (fun c => c.id) ++ dd₁.map (fun c => c.id))
        ++ b :: (dd₂.map (fun c => c.id) ++ (allColumns D₂).map (fun c => c.id)) := by
    simp [allColumns, List.flatMap_append, List.flatMap_cons, hBcols, hBMid]
  rw [hflatB] at hndM2
  obtain ⟨hPb, hQb⟩ := nodup_middle_not_mem hndM2
  simp only [List.mem_append] at hPb hQb
  have h₂b : ∀ c ∈ dd₂, c.id ≠ b := by
    intro c hc heq
    exact hQb (Or.inl (heq ▸ List.mem_map_of_mem _ hc))
  have hD₂b : ∀ c ∈ allColumns D₂, c.id ≠ b := by
    intro c hc heq
    exact hQb (Or.inr (heq ▸ List.mem_map_of_mem _ hc))
  have hsM : lastColPos (B₁ ++ brdA :: B₂) a = some (B₁.length, cc₁.length) :=
    lastColPos_last hAcols hAMid h₂a hB₂a
  have htM : lastColPos (B₁ ++ brdA :: B₂) b = some (D₁.length, dd₁.length) := by
    rw [hdec2]
    exact lastColPos_last hBcols hBMid h₂b hD₂b
  have hgA : colAt (B₁ ++ brdA :: B₂) (B₁.length, cc₁.length) = some AM :=
    colAt_decomp hAcols
  have hgB : colAt (B₁ ++ brdA :: B₂) (D₁.length, dd₁.length) = some BM := by
    rw [hdec2]
    exact colAt_decomp hBcols
  have hb : (B₁ ++ brdA :: B₂).get? B₁.length = some brdA := get?_append_len B₁ brdA B₂
  have hc : brdA.columns.get? cc₁.length = some AM := by
    rw [hAcols]
    exact get?_append_len cc₁ AM cc₂
  have hAmapdec : AM.cards.map (fun c => c.id)
      = n₁.map (fun c => c.id) ++ cid :: n₂.map (fun c => c.id) := by
    simp [hAMcards, hCMid]
  have hAnd2 := hAMnd
  rw [hAmapdec] at hAnd2
  obtain ⟨hn₁cid, hn₂cid⟩ := nodup_middle_not_mem hAnd2
  have hciM : findIndex (fun card => card.id == cid) AM.cards = some n₁.length := by
    rw [hAMcards]
    exact findIndex_append_first n₂
      (fun y hy => by
        simp only [beq_eq_false_iff_ne, ne_eq]
        intro heq
        exact hn₁cid (heq ▸ List.mem_map_of_mem _ hy))
      (by simpa using hCMid)
  have hocM : AM.cards.get? n₁.length = some CM := by
    rw [hAMcards]
    exact get?_append_len n₁ CM n₂
  have hremM : removeAt AM.cards n₁.length = n₁ ++ n₂ := by
    rw [hAMcards]
    exact removeAt_append_len n₁ CM n₂
  have hCnotn₁ : CM ∉ n₁ := by
    intro hCm
    exact hn₁cid (hCMid ▸ List.mem_map_of_mem _ hCm)
  have heraseM : AM.cards.erase CM = n₁ ++ n₂ := by
    rw [hAMcards, List.erase_append_right _ hCnotn₁, List.erase_cons_head]
  have hspne : ((B₁.length, cc₁.length) : Nat × Nat) ≠ (D₁.length, dd₁.length) := by
    intro heq
    rw [← heq, hgA] at hgB
    have : AM = BM := by simpa using hgB
    exact hab (by rw [← hAMid, this, hBMid])
  simp only [performOptimisticCardMoveMulti, hsM, htM, hgA, hciM, hocM,
    if_neg hspne, hgB]
  have hcat2 : colAt (setColCards (B₁ ++ brdA :: B₂) (B₁.length, cc₁.length)
      (removeAt AM.cards n₁.length)) (D₁.length, dd₁.length) = some BM := by
    rw [colAt_setColCards_ne hspne]
    exact hgB
  have hcat2b := hcat2
  simp only [colAt] at hcat2b
  obtain ⟨brd2, hb2, hc2⟩ := Option.bind_eq_some.mp hcat2b
  refine ⟨?_, ?_, length_insertAt (min_le_right _ _),
    get?_insertAt_self (min_le_right _ _), ?_⟩
  · rw [colAt_setColCards_ne (fun hh => hspne hh.symm)]
    rw [heraseM, ← hremM]
    exact colAt_setColCards_self _ hb hc
  · rw [← hCMid]
    exact colAt_setColCards_self _ hb2 hc2
  · intro q hq1 hq2
    rw [colAt_setColCards_ne (fun hh => hq2 hh.symm),
      colAt_setColCards_ne (fun hh => hq1 hh.symm)]

/-- C2: moving card C from column A to a distinct column B at index i (the
move request of `performOptimisticCardMove`) yields a tree in which A's card
sequence is its old sequence with C removed, B's card sequence is its old
sequence with C (display key refreshed to `cardId-targetColumnId`) inserted at
position `min(i, |B|)` — at the end when i is omitted — so its length grows by
one, and every column other than A and B keeps its card sequence; this holds
in both the single-board variant (columns looked up by first match) and the
multi-board variant (columns looked up positionally by last match), and the
embedding is a pure function, so the input tree is never mutated. -/
theorem C2_move_correctness
    (L₁ L₂ : List KanbanColumn) (a b cid : String) (i : Option Nat)
    (A B : KanbanColumn) (C : KCard) (m₁ m₂ : List KCard)
    (B₁ B₂ D₁ D₂ : List KBoard) (brdA brdB : KBoard)
    (cc₁ cc₂ dd₁ dd₂ : List KanbanColumn)
    (AM BM : KanbanColumn) (CM : KCard) (n₁ n₂ : List KCard)
    (hnd : ((L₁ ++ A :: L₂).map (fun c => c.id)).Nodup)
    (hAid : A.id = a) (hB : B ∈ L₁ ++ A :: L₂) (hBid : B.id = b) (hab : a ≠ b)
    (hcards : A.cards = m₁ ++ C :: m₂) (hCid : C.id = cid)
    (hAnd : (A.cards.map (fun c => c.id)).Nodup)
    (hdec2 : B₁ ++ brdA :: B₂ = D₁ ++ brdB :: D₂)
    (hndM : ((allColumns (B₁ ++ brdA :: B₂)).map (fun c => c.id)).Nodup)
    (hAcols : brdA.columns = cc₁ ++ AM :: cc₂) (hAMid : AM.id = a)
    (hBcols : brdB.columns = dd₁ ++ BM :: dd₂) (hBMid : BM.id = b)
    (hAMcards : AM.cards = n₁ ++ CM :: n₂) (hCMid : CM.id = cid)
    (hAMnd : (AM.cards.map (fun c => c.id)).Nodup) :
    (performOptimisticCardMove (L₁ ++ A :: L₂) cid a b i).map (fun c => c.id)
      = (L₁ ++ A :: L₂).map (fun c => c.id) ∧
    (performOptimisticCardMove (L₁ ++ A :: L₂) cid a b i).find?
        (fun c => c.id == a) = some { A with cards := A.cards.erase C } ∧
    (performOptimisticCardMove (L₁ ++ A :: L₂) cid a b i).find?
        (fun c => c.id == b)
      = some { B with
          cards := insertAt (min (i.getD B.cards.length) B.cards.length)
              { C with key := cid ++ "-" ++ b } B.cards } ∧
    (insertAt (min (i.getD B.cards.length) B.cards.length)
        { C with key := cid ++ "-" ++ b } B.cards).length = B.cards.length + 1 ∧
    (insertAt (min (i.getD B.cards.length) B.cards.length)
          { C with key := cid ++ "-" ++ b } B.cards).get?
        (min (i.getD B.cards.length) B.cards.length)
      = some { C with key := cid ++ "-" ++ b } ∧
    (∀ j col, (L₁ ++ A :: L₂).get? j = some col → col.id ≠ a → col.id ≠ b →
      (performOptimisticCardMove (L₁ ++ A :: L₂) cid a b i).get? j = some col) ∧
    colAt (performOptimisticCardMoveMulti (B₁ ++ brdA :: B₂) cid a b i)
        (B₁.length, cc₁.length) = some { AM with cards := AM.cards.erase CM } ∧
    colAt (performOptimisticCardMoveMulti (B₁ ++ brdA :: B₂) cid a b i)
        (D₁.length, dd₁.length)
      = some { BM with
          cards := insertAt (min (i.getD BM.cards.length) BM.cards.length)
              { CM with key := cid ++ "-" ++ b } BM.cards } ∧
    (insertAt (min (i.getD BM.cards.length) BM.cards.length)
        { CM with key := cid ++ "-" ++ b } BM.cards).length = BM.cards.length + 1 ∧
    (insertAt (min (i.getD BM.cards.length) BM.cards.length)
          { CM with key := cid ++ "-" ++ b } BM.cards).get?
        (min (i.getD BM.cards.length) BM.cards.length)
      = some { CM with key := cid ++ "-" ++ b } ∧
    (∀ q : Nat × Nat, q ≠ (B₁.length, cc₁.length) → q ≠ (D₁.length, dd₁.length) →
      colAt (performOptimisticCardMoveMulti (B₁ ++ brdA :: B₂) cid a b i) q
        = colAt (B₁ ++ brdA :: B₂) q) := by
  obtain ⟨s1, s2, s3, s4, s5, s6⟩ :=
    C2_single_aux L₁ L₂ a b cid i A B C m₁ m₂ hnd hAid hB hBid hab hcards hCid hAnd
  obtain ⟨t1, t2, t3, t4, t5⟩ :=
    C2_multi_aux B₁ B₂ D₁ D₂ brdA brdB cc₁ cc₂ dd₁ dd₂ a b cid i AM BM CM n₁ n₂
      hdec2 hndM hAcols hAMid hBcols hBMid hab hAMcards hCMid hAMnd
  exact ⟨s1, s2, s3, s4, s5, s6, t1, t2, t3, t4, t5⟩

/-- Witness for C2: moving card c1 from column "a" to column "b" at index 0 in
the two-column tree [a:[c1], b:[]] lands c1 (key refreshed to "c1-b") in
column "b", in both the single-board and the multi-board move. -/
theorem C2_witness :
    (performOptimisticCardMove
        ([] ++ { id := "a", title := 0,
                 cards := [{ id := "c1", content := CardContent.widget none, item := 0,
                             isUsingCache := false, key := "c1-a" }] } ::
          [({ id := "b", title := 1, cards := [] } : KanbanColumn)])
        "c1" "a" "b" (some 0)).find? (fun c => c.id == "b")
      = some { ({ id := "b", title := 1, cards := [] } : KanbanColumn) with
          cards := insertAt (min ((some 0 : Option Nat).getD 0) 0)
              { ({ id := "c1", content := CardContent.widget none, item := 0,
                   isUsingCache := false, key := "c1-a" } : KCard) with
                key := "c1" ++ "-" ++ "b" } [] } ∧
    colAt (performOptimisticCardMoveMulti
        ([] ++ { id := "brd", title := 0,
                 columns :=
                  [{ id := "a", title := 0,
                     cards := [{ id := "c1", content := CardContent.widget none, item := 0,
                                 isUsingCache := false, key := "c1-a" }] },
                   { id := "b", title := 1, cards := [] }] } :: ([] : List KBoard))
        "c1" "a" "b" (some 0))
        (([] : List KBoard).length,
          [({ id := "a", title := 0,
              cards := [{ id := "c1", content := CardContent.widget none, item := 0,
                          isUsingCache := false, key := "c1-a" }] } : KanbanColumn)].length)
      = some { ({ id := "b", title := 1, cards := [] } : KanbanColumn) with
          cards := insertAt (min ((some 0 : Option Nat).getD 0) 0)
              { ({ id := "c1", content := CardContent.widget none, item := 0,
                   isUsingCache := false, key := "c1-a" } : KCard) with
                key := "c1" ++ "-" ++ "b" } [] } := by
  have h := C2_move_correctness
    [] [({ id := "b", title := 1, cards := [] } : KanbanColumn)] "a" "b" "c1" (some 0)
    { id := "a", title := 0,
      cards := [{ id := "c1", content := CardContent.widget none, item := 0,
                  isUsingCache := false, key := "c1-a" }] }
    { id := "b", title := 1, cards := [] }
    { id := "c1", content := CardContent.widget none, item := 0,
      isUsingCache := false, key := "c1-a" }
    [] [] [] [] [] []
    { id := "brd", title := 0,
      columns :=
        [{ id := "a", title := 0,
           cards := [{ id := "c1", content := CardContent.widget none, item := 0,
                       isUsingCache := false, key := "c1-a" }] },
         { id := "b", title := 1, cards := [] }] }
    { id := "brd", title := 0,
      columns :=
        [{ id := "a", title := 0,
           cards := [{ id := "c1", content := CardContent.widget none, item := 0,
                       isUsingCache := false, key := "c1-a" }] },
         { id := "b", title := 1, cards := [] }] }
    []
    [({ id := "b", title := 1, cards := [] } : KanbanColumn)]
    [({ id := "a", title := 0,
        cards := [{ id := "c1", content := CardContent.widget none, item := 0,
                    isUsingCache := false, key := "c1-a" }] } : KanbanColumn)]
    []
    { id := "a", title := 0,
      cards := [{ id := "c1", content := CardContent.widget none, item := 0,
                  isUsingCache := false, key := "c1-a" }] }
    { id := "b", title := 1, cards := [] }
    { id := "c1", content := CardContent.widget none, item := 0,
      isUsingCache := false, key := "c1-a" }
    [] []
    (by decide) rfl (by decide) rfl (by decide) rfl rfl (by decide)
    rfl (by decide) rfl rfl rfl rfl rfl rfl (by decide)
  exact ⟨h.2.2.1, h.2.2.2.2.2.2.2.1⟩
